import Mathlib

/-!
Verification of the rezend-form store engine against its specification.

The definitions below are a shallow embedding of the TypeScript core
(`createFormStore` and the path utilities).  JavaScript values are modelled
by `StoreVal` (an identity universe on which Lean equality coincides with
`Object.is`: `NaN` is a single constructor equal to itself, `+0` and `-0`
are distinct constructors, and object references are opaque ids), and by
`JSVal` (trees of plain data, used by the structural accessor).  Maps and
sets from the source are modelled by association lists and duplicate-free
lists, preserving insertion order the way JavaScript `Map`/`Set` do.
-/

namespace Rezend

/-- JavaScript values as distinguished by `Object.is`.  Equality on this type
models `Object.is`: `nan = nan` holds, `num 0` (that is `+0`) and `negZero`
are different, and `ref` ids model object identity. -/
inductive StoreVal where
  | undef
  | vnull
  | vbool (b : Bool)
  | nan
  | negZero
  | num (n : Int)
  | str (s : String)
  | ref (id : Nat)
deriving DecidableEq, Repr

/-- Nullish test: JavaScript `v == null`, true exactly on `undefined` and `null`. -/
def nullish (v : StoreVal) : Bool :=
  v == .undef || v == .vnull

/-- JavaScript nullish coalescing `a ?? b`. -/
def jsCoalesce (a b : StoreVal) : StoreVal :=
  if nullish a then b else a

/-- JavaScript truthiness of a value. -/
def truthy : StoreVal → Bool
  | .undef => false
  | .vnull => false
  | .vbool b => b
  | .nan => false
  | .negZero => false
  | .num n => n != 0
  | .str s => s != ""
  | .ref _ => true

/-- Wildcard segment matching, translated from `isMatch` in the source: the
pattern and the path must have the same non-zero length and agree position by
position, where the literal token `*` matches any single segment. -/
def isMatch (pattern path : List String) : Bool :=
  if pattern.length ≠ path.length ∨ pattern.length = 0 then
    false
  else
    (List.zip pattern path).all fun pr => pr.1 == "*" || pr.1 == pr.2

theorem zipAll_iff (pattern : List String) : ∀ (path : List String),
    (((List.zip pattern path).all fun pr => pr.1 == "*" || pr.1 == pr.2) = true ↔
      ∀ i (h1 : i < pattern.length) (h2 : i < path.length),
        pattern.get ⟨i, h1⟩ = "*" ∨ pattern.get ⟨i, h1⟩ = path.get ⟨i, h2⟩) := by
  induction pattern with
  | nil =>
      intro path
      constructor
      · intro _ i h1 _
        exact absurd h1 (Nat.not_lt_zero i)
      · intro _
        simp
  | cons p ps ih =>
      intro path
      cases path with
      | nil =>
          constructor
          · intro _ i _ h2
            exact absurd h2 (Nat.not_lt_zero i)
          · intro _
            simp
      | cons q qs =>
          simp only [List.zip_cons_cons, List.all_cons, Bool.and_eq_true, ih qs]
          constructor
          · rintro ⟨hhead, htail⟩ i h1 h2
            cases i with
            | zero =>
                have : p = "*" ∨ p = q := by
                  simpa using hhead
                exact this
            | succ n =>
                exact htail n (Nat.lt_of_succ_lt_succ h1) (Nat.lt_of_succ_lt_succ h2)
          · intro h
            refine ⟨?_, ?_⟩
            · have := h 0 (Nat.succ_pos _) (Nat.succ_pos _)
              simpa using this
            · intro i h1 h2
              exact h (i + 1) (Nat.succ_lt_succ h1) (Nat.succ_lt_succ h2)

/-- C7: `isMatch(pattern, path)` returns true exactly when both segment lists
have the same non-zero length and, at every position, the pattern segment is
the wildcard token `*` or equals the path segment; an empty pattern or an
empty path never matches (the function returns false, it does not fail). -/
theorem isMatch_wildcard_spec (pattern path : List String) :
    (isMatch pattern path = true ↔
      pattern.length = path.length ∧ pattern ≠ [] ∧
        ∀ i (h1 : i < pattern.length) (h2 : i < path.length),
          pattern.get ⟨i, h1⟩ = "*" ∨ pattern.get ⟨i, h1⟩ = path.get ⟨i, h2⟩) ∧
    isMatch [] path = false ∧ isMatch pattern [] = false := by
  refine ⟨?_, ?_, ?_⟩
  · unfold isMatch
    by_cases hc : pattern.length ≠ path.length ∨ pattern.length = 0
    · rw [if_pos hc]
      constructor
      · intro h
        exact absurd h (by simp)
      · rintro ⟨hlen, hne, -⟩
        rcases hc with h | h
        · exact absurd hlen h
        · exact absurd (List.length_eq_zero.mp h) hne
    · rw [if_neg hc]
      push_neg at hc
      rw [zipAll_iff]
      constructor
      · intro hall
        refine ⟨hc.1, ?_, hall⟩
        intro hnil
        exact hc.2 (by simp [hnil])
      · rintro ⟨-, -, hall⟩
        exact hall
  · simp [isMatch]
  · by_cases h : pattern.length = 0
    · unfold isMatch
      rw [if_pos (Or.inr h)]
    · unfold isMatch
      rw [if_pos (Or.inl (by simpa using h))]

/-! ### Structural accessor: `getAtPath` / `setAtPath` -/

/-- Plain JavaScript data trees used by the structural accessor.  Lean equality
on this type models reference identity for the purposes of the no-op checks in
`setAtPath` (the function only ever returns the original node or a fresh clone
that differs structurally from it). -/
inductive JSVal where
  | undef
  | jnull
  | vbool (b : Bool)
  | num (n : Int)
  | str (s : String)
  | obj (fields : List (String × JSVal))
  | arr (elems : List JSVal)

mutual

/-- Identity test on data trees, modelling `Object.is` / `===` in the
structural-accessor code (reference equality coincides with structural
equality on this model, in which every node is freshly built). -/
def JSVal.beq : JSVal → JSVal → Bool
  | .undef, .undef => true
  | .jnull, .jnull => true
  | .vbool a, .vbool b => a == b
  | .num a, .num b => a == b
  | .str a, .str b => a == b
  | .obj fs, .obj gs => JSVal.beqFields fs gs
  | .arr as, .arr bs => JSVal.beqElems as bs
  | _, _ => false

/-- Field-list component of `JSVal.beq`. -/
def JSVal.beqFields : List (String × JSVal) → List (String × JSVal) → Bool
  | [], [] => true
  | (k1, v1) :: r1, (k2, v2) :: r2 => k1 == k2 && JSVal.beq v1 v2 && JSVal.beqFields r1 r2
  | _, _ => false

/-- Element-list component of `JSVal.beq`. -/
def JSVal.beqElems : List JSVal → List JSVal → Bool
  | [], [] => true
  | v1 :: r1, v2 :: r2 => JSVal.beq v1 v2 && JSVal.beqElems r1 r2
  | _, _ => false

end

mutual

theorem JSVal.beq_refl : ∀ (v : JSVal), JSVal.beq v v = true
  | .undef => rfl
  | .jnull => rfl
  | .vbool b => by simp [JSVal.beq]
  | .num n => by simp [JSVal.beq]
  | .str s => by simp [JSVal.beq]
  | .obj fs => JSVal.beqFields_refl fs
  | .arr es => JSVal.beqElems_refl es

theorem JSVal.beqFields_refl : ∀ (fs : List (String × JSVal)), JSVal.beqFields fs fs = true
  | [] => rfl
  | (k, v) :: r => by
      simp only [JSVal.beqFields, Bool.and_eq_true, beq_self_eq_true, true_and]
      exact ⟨JSVal.beq_refl v, JSVal.beqFields_refl r⟩

theorem JSVal.beqElems_refl : ∀ (es : List JSVal), JSVal.beqElems es es = true
  | [] => rfl
  | v :: r => by
      simp only [JSVal.beqElems, Bool.and_eq_true]
      exact ⟨JSVal.beq_refl v, JSVal.beqElems_refl r⟩

end

/-- The regular expression test `/^\d+$/.test(s)` from the source. -/
def looksNumeric (s : String) : Bool :=
  s != "" && s.toList.all Char.isDigit

/-- JavaScript `Number(s)` restricted to all-digit strings (the only place the
source applies it, guarded by `looksNumeric`). -/
def strToIndex (s : String) : Nat :=
  s.toNat?.getD 0

/-- Nullish test on data trees (`v == null` / the left side of `??`). -/
def jsNullish : JSVal → Bool
  | .undef => true
  | .jnull => true
  | _ => false

/-- Own-property lookup on a plain object, `undefined` when absent. -/
def objLookup (fs : List (String × JSVal)) (k : String) : JSVal :=
  match fs.find? (fun e => e.1 == k) with
  | some e => e.2
  | none => (.undef)

/-- Own enumerable properties produced by an object spread `{...o}`: a plain
object contributes its fields, an array its index properties, a string its
character index properties, and every other value contributes nothing. -/
def spreadFields : JSVal → List (String × JSVal)
  | .obj fs => fs
  | .arr es => es.enum.map fun p => (toString p.1, p.2)
  | .str s => s.toList.enum.map fun p => (toString p.1, .str (String.mk [p.2]))
  | _ => []

/-- Property write on the spread clone, keeping the original key position. -/
def objSet (fs : List (String × JSVal)) (k : String) (v : JSVal) : List (String × JSVal) :=
  if fs.any (fun e => e.1 == k) then
    fs.map fun e => if e.1 == k then (k, v) else e
  else
    fs ++ [(k, v)]

/-- Index write on an array clone; writes past the end fill the gap the way a
sparse JavaScript array reads back (`undefined` holes). -/
def arrSet (es : List JSVal) (i : Nat) (v : JSVal) : List JSVal :=
  if i < es.length then es.set i v
  else es ++ List.replicate (i - es.length) .undef ++ [v]

/-- Third argument of `setAtPath`: a literal value or an updater function of
the previous value (`typeof valueOrUpdater === "function"` in the source). -/
inductive ValOrUpd where
  | val (v : JSVal)
  | upd (f : JSVal → JSVal)

/-- Compute the next value from a `ValOrUpd` and the previous value. -/
def applyVU : ValOrUpd → JSVal → JSVal
  | .val v, _ => v
  | .upd f, prev => f prev

/-- Fresh container created when descending into a missing child: an array
when the next segment looks like a non-negative integer literal, otherwise a
plain object (`/^\d+$/.test(rest[0] ?? "")` in the source). -/
def childDefault (rest : List String) : JSVal :=
  if looksNumeric (rest.headD "") then .arr [] else .obj []

/-- Read a nested value by tokens, translated from `getAtPath` in the source:
walk each segment, short-circuiting to `undefined` on a nullish intermediate;
arrays are indexed by `Number(token)`, other objects by the raw key, and any
primitive intermediate yields `undefined`. -/
def getAtPath : JSVal → List String → JSVal
  | v, [] => v
  | .arr es, t :: rest =>
      if looksNumeric t then getAtPath (es.getD (strToIndex t) .undef) rest
      else getAtPath .undef rest
  | .obj fs, t :: rest => getAtPath (objLookup fs t) rest
  | _, _ :: _ => (.undef)

/-- Set or update a nested value by tokens with spine-only structural sharing,
translated from `setAtPath` in the source.  An empty token list returns the
root unchanged; a numeric head on an array goes through the array clone
branch, everything else through the object spread branch; when the computed
next value (or updated child) is identical to the previous one, the original
node is returned unchanged. -/
def setAtPath (o : JSVal) (tokens : List String) (vu : ValOrUpd) : JSVal :=
  match tokens with
  | [] => o
  | head :: rest =>
    match o, (looksNumeric head : Bool) with
    | .arr es, true =>
        let index := strToIndex head
        let prev := es.getD index .undef
        if rest = [] then
          let nextValue := applyVU vu prev
          if JSVal.beq prev nextValue then .arr es
          else .arr (arrSet es index nextValue)
        else
          let child := if jsNullish prev then childDefault rest else prev
          let updatedChild := setAtPath child rest vu
          if JSVal.beq updatedChild prev then .arr es
          else .arr (arrSet es index updatedChild)
    | other, _ =>
        let fs := spreadFields other
        let prev := objLookup fs head
        if rest = [] then
          let nextValue := applyVU vu prev
          if JSVal.beq prev nextValue then other
          else .obj (objSet fs head nextValue)
        else
          let child := if jsNullish prev then childDefault rest else prev
          let updatedChild := setAtPath child rest vu
          if JSVal.beq updatedChild prev then other
          else .obj (objSet fs head updatedChild)

/-- Containers are the values `setAtPath` can descend through unchanged. -/
def isContainer : JSVal → Bool
  | .obj _ => true
  | .arr _ => true
  | _ => false

/-- The child `setAtPath` reads (and `getAtPath` walks through) at one level. -/
def accessedChild (o : JSVal) (head : String) : JSVal :=
  match o, (looksNumeric head : Bool) with
  | .arr es, true => es.getD (strToIndex head) .undef
  | other, _ => objLookup (spreadFields other) head

/-- On an array level the segment must be numeric for the walk to be clean. -/
def arrStep : JSVal → String → Bool
  | .arr _, head => looksNumeric head
  | _, _ => true

/-- The path's spine is intact: the root and every intermediate value are
containers, and array levels are addressed with numeric segments.  Under this
condition the no-op detection of `setAtPath` propagates to the root. -/
def spineOk : JSVal → List String → Bool
  | _, [] => true
  | o, head :: rest =>
      isContainer o && arrStep o head && (rest.isEmpty || spineOk (accessedChild o head) rest)

theorem getAtPath_step (o : JSVal) (head : String) (rest : List String)
    (hc : isContainer o = true) (ha : arrStep o head = true) :
    getAtPath o (head :: rest) = getAtPath (accessedChild o head) rest := by
  cases o with
  | obj fs => simp [getAtPath, accessedChild, spreadFields]
  | arr es =>
      have hn : looksNumeric head = true := ha
      simp [getAtPath, accessedChild, hn]
  | undef => exact absurd hc (by simp [isContainer])
  | jnull => exact absurd hc (by simp [isContainer])
  | vbool b => exact absurd hc (by simp [isContainer])
  | num n => exact absurd hc (by simp [isContainer])
  | str s => exact absurd hc (by simp [isContainer])

theorem isContainer_not_nullish (v : JSVal) (hc : isContainer v = true) :
    jsNullish v = false := by
  cases v <;> simp [isContainer] at hc <;> rfl

theorem setAtPath_leaf_arr (es : List JSVal) (head : String) (vu : ValOrUpd)
    (hn : looksNumeric head = true) :
    setAtPath (.arr es) [head] vu =
      if JSVal.beq (es.getD (strToIndex head) .undef)
          (applyVU vu (es.getD (strToIndex head) .undef)) then .arr es
      else .arr (arrSet es (strToIndex head) (applyVU vu (es.getD (strToIndex head) .undef))) := by
  simp only [setAtPath, hn]
  rw [if_pos trivial]

theorem setAtPath_cons_arr (es : List JSVal) (head : String) (rest : List String)
    (vu : ValOrUpd) (hn : looksNumeric head = true) (hne : rest ≠ [])
    (hnn : jsNullish (es.getD (strToIndex head) .undef) = false) :
    setAtPath (.arr es) (head :: rest) vu =
      if JSVal.beq (setAtPath (es.getD (strToIndex head) .undef) rest vu)
          (es.getD (strToIndex head) .undef) then .arr es
      else .arr (arrSet es (strToIndex head)
            (setAtPath (es.getD (strToIndex head) .undef) rest vu)) := by
  simp only [setAtPath, hn, if_neg hne, hnn, Bool.false_eq_true, if_false]

theorem setAtPath_leaf_obj (fs : List (String × JSVal)) (head : String) (vu : ValOrUpd) :
    setAtPath (.obj fs) [head] vu =
      if JSVal.beq (objLookup fs head) (applyVU vu (objLookup fs head)) then .obj fs
      else .obj (objSet fs head (applyVU vu (objLookup fs head))) := by
  simp only [setAtPath, spreadFields]
  rw [if_pos trivial]

theorem setAtPath_cons_obj (fs : List (String × JSVal)) (head : String) (rest : List String)
    (vu : ValOrUpd) (hne : rest ≠ []) (hnn : jsNullish (objLookup fs head) = false) :
    setAtPath (.obj fs) (head :: rest) vu =
      if JSVal.beq (setAtPath (objLookup fs head) rest vu) (objLookup fs head) then .obj fs
      else .obj (objSet fs head (setAtPath (objLookup fs head) rest vu)) := by
  simp only [setAtPath, spreadFields, if_neg hne, hnn, Bool.false_eq_true, if_false]

theorem setAtPath_noop (tokens : List String) :
    ∀ (o : JSVal), spineOk o tokens = true →
      setAtPath o tokens (.val (getAtPath o tokens)) = o := by
  induction tokens with
  | nil => intro o _; rfl
  | cons head rest ih =>
      intro o hspine
      simp only [spineOk, Bool.and_eq_true, Bool.or_eq_true] at hspine
      obtain ⟨⟨hc, ha⟩, hrest⟩ := hspine
      rw [getAtPath_step o head rest hc ha]
      cases o with
      | arr es =>
          have hn : looksNumeric head = true := ha
          have hacc : accessedChild (.arr es) head = es.getD (strToIndex head) .undef := by
            simp [accessedChild, hn]
          cases rest with
          | nil =>
              rw [hacc, getAtPath, setAtPath_leaf_arr es head _ hn]
              simp [applyVU, JSVal.beq_refl]
          | cons r rs =>
              have hsp : spineOk (accessedChild (.arr es) head) (r :: rs) = true := by
                rcases hrest with h | h
                · simp at h
                · exact h
              have hcont : isContainer (accessedChild (.arr es) head) = true := by
                simp only [spineOk, Bool.and_eq_true] at hsp
                exact hsp.1.1
              have hnn : jsNullish (es.getD (strToIndex head) .undef) = false := by
                rw [← hacc]
                exact isContainer_not_nullish _ hcont
              have hchild := ih (accessedChild (.arr es) head) hsp
              rw [hacc] at hchild
              rw [hacc, setAtPath_cons_arr es head (r :: rs) _ hn (List.cons_ne_nil r rs) hnn,
                hchild, JSVal.beq_refl]
              simp
      | obj fs =>
          have hacc : accessedChild (.obj fs) head = objLookup fs head := by
            simp [accessedChild, spreadFields]
          cases rest with
          | nil =>
              rw [hacc, getAtPath, setAtPath_leaf_obj fs head _]
              simp [applyVU, JSVal.beq_refl]
          | cons r rs =>
              have hsp : spineOk (accessedChild (.obj fs) head) (r :: rs) = true := by
                rcases hrest with h | h
                · simp at h
                · exact h
              have hcont : isContainer (accessedChild (.obj fs) head) = true := by
                simp only [spineOk, Bool.and_eq_true] at hsp
                exact hsp.1.1
              have hnn : jsNullish (objLookup fs head) = false := by
                rw [← hacc]
                exact isContainer_not_nullish _ hcont
              have hchild := ih (accessedChild (.obj fs) head) hsp
              rw [hacc] at hchild
              rw [hacc, setAtPath_cons_obj fs head (r :: rs) _ (List.cons_ne_nil r rs) hnn,
                hchild, JSVal.beq_refl]
              simp
      | undef => exact absurd hc (by simp [isContainer])
      | jnull => exact absurd hc (by simp [isContainer])
      | vbool b => exact absurd hc (by simp [isContainer])
      | num n => exact absurd hc (by simp [isContainer])
      | str s => exact absurd hc (by simp [isContainer])

/-- C8 (amended): an empty segment list is always a no-op returning the root
itself, and `setAtPath(root, path, currentValueAtPath)` returns the original
root unchanged (the leaf no-op propagating through every level) provided the
path's spine is intact: the root and every intermediate value along the path
are containers (objects or arrays) and array levels are addressed by numeric
segments.  When an intermediate is missing or not a container the source
materializes a fresh child container, so a new root is returned even though
the value read at the path is unchanged (see the counterexample). -/
theorem setAtPath_noop_spec :
    (∀ (o : JSVal) (vu : ValOrUpd), setAtPath o [] vu = o) ∧
    (∀ (o : JSVal) (tokens : List String), spineOk o tokens = true →
      setAtPath o tokens (.val (getAtPath o tokens)) = o) :=
  ⟨fun _ _ => rfl, fun o tokens h => setAtPath_noop tokens o h⟩

theorem setAtPath_noop_spec_witness :
    spineOk (.obj [("a", .arr [.num 7])]) ["a", "0"] = true ∧
    setAtPath (.obj [("a", .arr [.num 7])]) ["a", "0"]
        (.val (getAtPath (.obj [("a", .arr [.num 7])]) ["a", "0"])) =
      .obj [("a", .arr [.num 7])] :=
  ⟨rfl, setAtPath_noop_spec.2 _ _ rfl⟩

/-- C8 counterexample: on `root = {}` and path `a.b`, the current value at the
path is `undefined` and the computed next value `undefined` is identical to it
by `Object.is`, yet `setAtPath({}, ["a","b"], undefined)` returns the fresh
object `{a: {}}`, not the original root: the no-op detection does not
propagate through a missing intermediate. -/
theorem setAtPath_noop_counterexample :
    getAtPath (.obj []) ["a", "b"] = .undef ∧
    setAtPath (.obj []) ["a", "b"] (.val .undef) = .obj [("a", .obj [])] ∧
    setAtPath (.obj []) ["a", "b"] (.val .undef) ≠ .obj ([] : List (String × JSVal)) := by
  refine ⟨rfl, rfl, ?_⟩
  intro h
  rw [show setAtPath (.obj []) ["a", "b"] (.val .undef) = .obj [("a", .obj [])] from rfl] at h
  simp at h

/-! ### Store data model -/

/-- Association-list lookup, modelling `Map.get` (at most one entry per key). -/
def alistGet {κ α : Type} [DecidableEq κ] : List (κ × α) → κ → Option α
  | [], _ => none
  | e :: rest, k => if e.1 = k then some e.2 else alistGet rest k

/-- Association-list write, modelling `Map.set`: update in place when the key
is present (JavaScript `Map` keeps first-insertion order), append otherwise. -/
def alistSet {κ α : Type} [DecidableEq κ] : List (κ × α) → κ → α → List (κ × α)
  | [], k, v => [(k, v)]
  | e :: rest, k, v => if e.1 = k then (k, v) :: rest else e :: alistSet rest k v

/-- Association-list removal, modelling `Map.delete`. -/
def alistRemove {κ α : Type} [DecidableEq κ] : List (κ × α) → κ → List (κ × α)
  | [], _ => []
  | e :: rest, k => if e.1 = k then alistRemove rest k else e :: alistRemove rest k

theorem alistGet_set_self {κ α : Type} [DecidableEq κ] (l : List (κ × α)) (k : κ) (v : α) :
    alistGet (alistSet l k v) k = some v := by
  induction l with
  | nil => simp [alistGet, alistSet]
  | cons e rest ih =>
      by_cases he : e.1 = k
      · simp [alistGet, alistSet, he]
      · simp [alistGet, alistSet, he, ih]

theorem alistGet_set_ne {κ α : Type} [DecidableEq κ] (l : List (κ × α)) (k k' : κ) (v : α)
    (h : k' ≠ k) : alistGet (alistSet l k v) k' = alistGet l k' := by
  induction l with
  | nil =>
      simp only [alistSet, alistGet]
      rw [if_neg (fun hh => h hh.symm)]
  | cons e rest ih =>
      by_cases he : e.1 = k
      · simp only [alistSet, if_pos he, alistGet]
        rw [if_neg (fun hh => h hh.symm), if_neg (fun hh => h (he ▸ hh).symm)]
      · simp only [alistSet, if_neg he, alistGet, ih]

/-- Insertion into a JavaScript `Set` modelled as a duplicate-free list:
appends only when absent, keeping insertion order. -/
def setAdd {α : Type} [DecidableEq α] (l : List α) (a : α) : List α :=
  if a ∈ l then l else l ++ [a]

/-- Removal from a JavaScript `Set` modelled as a list. -/
def setRemove {α : Type} [DecidableEq α] (l : List α) (a : α) : List α :=
  l.filter fun x => decide (x ≠ a)

/-- Field input mode. -/
inductive Mode where
  | uncontrolled
  | controlled
deriving DecidableEq, Repr

/-- Internal field bookkeeping, translated from `FieldRecord` in the source.
Validators are identified by opaque ids; `validators` mirrors the
`fieldValidators` map entry the way the source keeps `record.validators`
pointing at the shared set (`none` models `undefined`). -/
structure FieldRecord where
  mode : Mode
  validator : Option Nat := none
  validators : Option (List Nat) := none
  initialValue : StoreVal := .undef
  controlledValue : StoreVal := .undef
  uncontrolledValue : StoreVal := .undef
  touched : Bool := false
  dirty : Bool := false
  error : Option String := none
  meta : StoreVal := .undef
  epoch : Nat := 0
deriving DecidableEq, Repr

/-- Options accepted by `register`; `initialValue`/`meta` use `StoreVal.undef`
for "not supplied", exactly as absent object properties read in JavaScript. -/
structure RegisterOptions where
  mode : Option Mode := none
  validate : Option Nat := none
  initialValue : StoreVal := .undef
  meta : StoreVal := .undef
deriving DecidableEq, Repr

/-- Selector given to `subscribe`, reified as the tree of snapshot getter
calls it can make; `branch` lets the dependency set depend on earlier reads,
which is what the dependency-recording proxy exists for. -/
inductive SelExpr where
  | const (v : StoreVal)
  | getTouched (p : String)
  | getDirty (p : String)
  | getError (p : String)
  | getValue (p : String)
  | branch (c t e : SelExpr)
deriving DecidableEq, Repr

/-- Subscription entry: selector, callback (an opaque id), last delivered
value and the dependency set recorded on its most recent run. -/
structure Subscription where
  id : Nat
  selector : SelExpr
  callback : Nat
  lastValue : StoreVal
  dependencies : List String
deriving DecidableEq, Repr

/-- Exact-path watch registration. -/
structure WatchEntry where
  id : Nat
  pattern : String
  callback : Nat
deriving DecidableEq, Repr

/-- A cleanup collected in `pluginCleanups`, identified for bookkeeping and
modelled by the value it throws, if any (`none` = returns normally). -/
structure Cleanup where
  id : Nat
  err : Option StoreVal := none
deriving DecidableEq, Repr

/-- Mutation context threaded through middleware. -/
structure MutCtx where
  type : String
  path : Option String
  payload : StoreVal
  epoch : Nat
deriving DecidableEq, Repr

/-- Middleware, modelled as an inspect/transform/veto step: `none` models not
calling `next`, `some ctx'` models calling `next` on a (possibly mutated)
context.  No claim in this development executes a non-empty chain. -/
def MwFn : Type := MutCtx → Option MutCtx

/-- The store state owned by one `createFormStore` instance: every map, set,
counter and batch flag from the closure, in declaration order.  JavaScript
`Map`/`Set` become association lists / duplicate-free lists; `nextSubId` and
`nextWatchId` allocate the identities of freshly created subscription and
watcher objects. -/
structure Store where
  fields : List (String × FieldRecord) := []
  fieldValidators : List (String × List Nat) := []
  validationTracker : List (Option String × Nat) := []
  subscriptions : List Subscription := []
  subscribersByPath : List (String × List Nat) := []
  specificWatchers : List (String × List WatchEntry) := []
  wildcardWatchers : List WatchEntry := []
  middlewareBag : List MwFn := []
  pluginCleanups : List Cleanup := []
  eventListeners : List (String × List Nat) := []
  totalEventListeners : Nat := 0
  totalSpecificWatchers : Nat := 0
  subscriberCount : Nat := 0
  hasChangedInBatch : Bool := false
  changedPathsInBatch : List String := []
  watchQueue : List (String × StoreVal) := []
  isNotificationScheduled : Bool := false
  epoch : Nat := 0
  nextSubId : Nat := 0
  nextWatchId : Nat := 0

/-- The store created by `createFormStore({})`: everything empty. -/
def emptyStore : Store := {}

/-- The fast-path eligibility recomputed by `updateSimpleWriteFastPath`
whenever middleware, subscriber, watcher or listener counts change; since the
source keeps the flag exactly in sync with these counts, the model derives it
from them. -/
def simpleWriteFastPathEnabled (st : Store) : Bool :=
  st.middlewareBag.isEmpty && st.subscriberCount == 0 && st.totalSpecificWatchers == 0 &&
    st.wildcardWatchers.isEmpty && st.totalEventListeners == 0

/-- Snapshot getter `getTouched`. -/
def snapGetTouched (fields : List (String × FieldRecord)) (p : String) : Bool :=
  match alistGet fields p with
  | some r => r.touched
  | none => false

/-- Snapshot getter `getDirty`. -/
def snapGetDirty (fields : List (String × FieldRecord)) (p : String) : Bool :=
  match alistGet fields p with
  | some r => r.dirty
  | none => false

/-- Snapshot getter `getError` (`none` models `null`). -/
def snapGetError (fields : List (String × FieldRecord)) (p : String) : Option String :=
  match alistGet fields p with
  | some r => r.error
  | none => none

/-- Snapshot getter `getValue`: the controlled or the mirrored uncontrolled
value depending on the record's mode, `undefined` for an unregistered path. -/
def snapGetValue (fields : List (String × FieldRecord)) (p : String) : StoreVal :=
  match alistGet fields p with
  | some r => if r.mode = .controlled then r.controlledValue else r.uncontrolledValue
  | none => (.undef)

/-- Injection of `getError`'s `string | null` result into the value universe. -/
def errToVal : Option String → StoreVal
  | some s => .str s
  | none => .vnull

/-- Evaluate a selector against the plain (non-recording) snapshot. -/
def evalSel (fields : List (String × FieldRecord)) : SelExpr → StoreVal
  | .const v => v
  | .getTouched p => .vbool (snapGetTouched fields p)
  | .getDirty p => .vbool (snapGetDirty fields p)
  | .getError p => errToVal (snapGetError fields p)
  | .getValue p => snapGetValue fields p
  | .branch c t e =>
      if truthy (evalSel fields c) then evalSel fields t else evalSel fields e

/-- Evaluate a selector against the dependency-recording proxied snapshot:
every getter call first adds its path to the current dependency set (a
JavaScript `Set`, so duplicates are dropped and insertion order kept). -/
def evalSelDeps (fields : List (String × FieldRecord)) :
    SelExpr → List String → StoreVal × List String
  | .const v, deps => (v, deps)
  | .getTouched p, deps => (.vbool (snapGetTouched fields p), setAdd deps p)
  | .getDirty p, deps => (.vbool (snapGetDirty fields p), setAdd deps p)
  | .getError p, deps => (errToVal (snapGetError fields p), setAdd deps p)
  | .getValue p, deps => (snapGetValue fields p, setAdd deps p)
  | .branch c t e, deps =>
      let cd := evalSelDeps fields c deps
      if truthy cd.1 then evalSelDeps fields t cd.2 else evalSelDeps fields e cd.2

theorem evalSelDeps_fst (fields : List (String × FieldRecord)) :
    ∀ (e : SelExpr) (deps : List String), (evalSelDeps fields e deps).1 = evalSel fields e := by
  intro e
  induction e with
  | const v => intro deps; rfl
  | getTouched p => intro deps; rfl
  | getDirty p => intro deps; rfl
  | getError p => intro deps; rfl
  | getValue p => intro deps; rfl
  | branch c t e ihc iht ihe =>
      intro deps
      simp only [evalSelDeps, evalSel, ihc]
      by_cases h : truthy (evalSel fields c) = true
      · simp [h, iht]
      · simp only [Bool.not_eq_true] at h
        simp [h, ihe]

/-! ### Mutation pipeline -/

/-- Result of the innermost apply step of a mutation (`MutationResult` in the
source): the updated store, the `changed` flag, the operation's return value
and the optional watch payload (`none` models the absent `watchValue` key). -/
structure ApplyResult (R : Type) where
  store : Store
  changed : Bool
  value : R
  watchValue : Option StoreVal := none

/-- Effects observable from one `runMutation` call, beyond the store state:
whether any middleware function ran, whether the terminal apply step ran,
whether the apply step reported a change, whether `emitEvent("commit", …)` was
invoked, and whether a notification flush was newly scheduled. -/
structure MutEffects where
  middlewareInvoked : Bool := false
  baseRan : Bool := false
  changed : Bool := false
  commitEmitCalled : Bool := false
  scheduled : Bool := false
deriving DecidableEq, Repr

/-- Run the composed middleware chain (first-registered outermost) over a
context; `none` means some middleware did not call `next`. -/
def runChain : List MwFn → MutCtx → Option MutCtx
  | [], ctx => some ctx
  | f :: rest, ctx =>
      match f ctx with
      | none => none
      | some ctx2 => runChain rest ctx2

/-- JavaScript truthiness of the optional path (`if (path)` in the source:
`undefined` and the empty string are falsy). -/
def pathTruthy : Option String → Bool
  | none => false
  | some s => s != ""

/-- The mutation pipeline, translated from `runMutation` in the source: bump
the epoch, build the context, run the middleware chain (the terminal step is
skipped when a middleware vetoes, and the operation's result stays
`undefined`, modelled by `none`), apply the state change, and on `changed`
record the batched changed path (when subscribers exist), enqueue the watch
event (when watchers exist and a watch payload was supplied), schedule the
flush if none is pending, and call `emitEvent("commit", …)`.  Listener
callbacks themselves are opaque to the model; `commitEmitCalled` records that
the emit happened. -/
def runMutation {R : Type} (st : Store) (ty : String) (path : Option String)
    (payload : StoreVal) (apply : Store → ApplyResult R) : Store × Option R × MutEffects :=
  let st0 : Store := { st with epoch := st.epoch + 1 }
  let ctx : MutCtx := { type := ty, path := path, payload := payload, epoch := st0.epoch }
  match runChain st0.middlewareBag ctx with
  | none => (st0, none, { middlewareInvoked := true })
  | some _ =>
      let res := apply st0
      let st1 := res.store
      if res.changed then
        let shouldNotifySubscribers := decide (st1.subscriptions.length > 0)
        let shouldNotifyWatchers :=
          decide (st1.totalSpecificWatchers > 0) || !st1.wildcardWatchers.isEmpty
        let st2 :=
          if shouldNotifySubscribers then
            { st1 with hasChangedInBatch := true,
                       changedPathsInBatch :=
                        match path, pathTruthy path with
                        | some p, true => setAdd st1.changedPathsInBatch p
                        | _, _ => st1.changedPathsInBatch }
          else st1
        let st3 :=
          match path, pathTruthy path, res.watchValue with
          | some p, true, some wv =>
              if shouldNotifyWatchers &&
                  ((alistGet st2.specificWatchers p).isSome || !st2.wildcardWatchers.isEmpty) then
                { st2 with watchQueue := st2.watchQueue ++ [(p, wv)] }
              else st2
          | _, _, _ => st2
        let doSchedule :=
          (shouldNotifySubscribers || shouldNotifyWatchers) && !st3.isNotificationScheduled
        let st4 := if doSchedule then { st3 with isNotificationScheduled := true } else st3
        (st4, some res.value,
          { middlewareInvoked := !st.middlewareBag.isEmpty, baseRan := true, changed := true,
            commitEmitCalled := true, scheduled := doSchedule })
      else
        (st1, some res.value, { middlewareInvoked := !st.middlewareBag.isEmpty, baseRan := true })

/-! ### setControlledValue: fast path and full path -/

/-- Effects observable from one `setControlledValue` call: the two
developer-misuse warnings, and the pipeline effects when the mutation is
routed through `runMutation`. -/
structure SetCVEffects where
  warnedUnregistered : Bool := false
  warnedModeSwitch : Bool := false
  middlewareInvoked : Bool := false
  commitEmitCalled : Bool := false
  scheduled : Bool := false
deriving DecidableEq, Repr

/-- The terminal apply step of the middleware-routed `setControlledValue`
mutation: re-read the record, recompute `valueDidChange` / `nextDirtyState` /
`dirtyDidChange` with `Object.is`, report no change when both are false, and
otherwise write the changed parts and supply the watch payload. -/
def setControlledValueApply (path : String) (value : StoreVal) (st : Store) :
    ApplyResult Unit :=
  match alistGet st.fields path with
  | none => { store := st, changed := false, value := () }
  | some target =>
      let previous := target.controlledValue
      let valueDidChange := previous != value
      let nextDirtyState := value != target.initialValue
      let dirtyDidChange := target.dirty != nextDirtyState
      if !valueDidChange && !dirtyDidChange then
        { store := st, changed := false, value := () }
      else
        let target1 := if valueDidChange then { target with controlledValue := value } else target
        let target2 := if dirtyDidChange then { target1 with dirty := nextDirtyState } else target1
        { store := { st with fields := alistSet st.fields path target2 },
          changed := true, value := (), watchValue := some value }

/-- `setControlledValue`, translated from the source: warn and no-op on an
unregistered path; silently switch a non-controlled field to controlled mode
(with a warning); compute `valueChanged = !Object.is(prev, value)` and
`dirty = !Object.is(value, initialValue)`; return without any further work
when neither the value nor the dirty flag changes; write the record directly
when the fast path is enabled; otherwise route the mutation through
`runMutation`. -/
def setControlledValue (st : Store) (path : String) (value : StoreVal) :
    Store × SetCVEffects :=
  match alistGet st.fields path with
  | none => (st, { warnedUnregistered := true })
  | some record0 =>
      let record :=
        if record0.mode = Mode.controlled then record0
        else { record0 with mode := Mode.controlled }
      let st1 :=
        if record0.mode = Mode.controlled then st
        else { st with fields := alistSet st.fields path record }
      let warnSwitch := record0.mode ≠ Mode.controlled
      let previousValue := record.controlledValue
      let valueChanged := previousValue != value
      let nextDirty := value != record.initialValue
      let dirtyChanged := record.dirty != nextDirty
      if !valueChanged && !dirtyChanged then
        (st1, { warnedModeSwitch := warnSwitch })
      else if simpleWriteFastPathEnabled st1 then
        let record1 := if valueChanged then { record with controlledValue := value } else record
        let record2 := if dirtyChanged then { record1 with dirty := nextDirty } else record1
        ({ st1 with fields := alistSet st1.fields path record2 },
          { warnedModeSwitch := warnSwitch })
      else
        let out := runMutation st1 "setControlledValue" (some path) value
          (setControlledValueApply path value)
        (out.1, { warnedModeSwitch := warnSwitch, middlewareInvoked := out.2.2.middlewareInvoked,
                  commitEmitCalled := out.2.2.commitEmitCalled, scheduled := out.2.2.scheduled })

/-- The full middleware-routed path of `setControlledValue`: identical to
`setControlledValue` except that the fast-path branch is never taken, so the
mutation is always routed through `runMutation`.  Used to state the claim
that the fast path refines the full path. -/
def setControlledValueFullPath (st : Store) (path : String) (value : StoreVal) :
    Store × SetCVEffects :=
  match alistGet st.fields path with
  | none => (st, { warnedUnregistered := true })
  | some record0 =>
      let record :=
        if record0.mode = Mode.controlled then record0
        else { record0 with mode := Mode.controlled }
      let st1 :=
        if record0.mode = Mode.controlled then st
        else { st with fields := alistSet st.fields path record }
      let warnSwitch := record0.mode ≠ Mode.controlled
      let previousValue := record.controlledValue
      let valueChanged := previousValue != value
      let nextDirty := value != record.initialValue
      let dirtyChanged := record.dirty != nextDirty
      if !valueChanged && !dirtyChanged then
        (st1, { warnedModeSwitch := warnSwitch })
      else
        let out := runMutation st1 "setControlledValue" (some path) value
          (setControlledValueApply path value)
        (out.1, { warnedModeSwitch := warnSwitch, middlewareInvoked := out.2.2.middlewareInvoked,
                  commitEmitCalled := out.2.2.commitEmitCalled, scheduled := out.2.2.scheduled })

/-- `getDirty` on the store (`getFieldRecord(path)?.dirty ?? false`). -/
def Store.getDirty (st : Store) (p : String) : Bool :=
  snapGetDirty st.fields p

/-- `getTouched` on the store. -/
def Store.getTouched (st : Store) (p : String) : Bool :=
  snapGetTouched st.fields p

/-- `getError` on the store. -/
def Store.getError (st : Store) (p : String) : Option String :=
  snapGetError st.fields p

/-- `getValue` on the store. -/
def Store.getValue (st : Store) (p : String) : StoreVal :=
  snapGetValue st.fields p

theorem alistSet_get_self {κ α : Type} [DecidableEq κ] (l : List (κ × α)) (k : κ) (x : α)
    (h : alistGet l k = some x) : alistSet l k x = l := by
  induction l with
  | nil => simp [alistGet] at h
  | cons e rest ih =>
      by_cases he : e.1 = k
      · simp only [alistGet, if_pos he] at h
        obtain ⟨k', v'⟩ := e
        simp only at he
        subst he
        injection h with h2
        subst h2
        simp [alistSet]
      · simp only [alistGet, if_neg he] at h
        simp [alistSet, he, ih h]

theorem alistSet_alistSet {κ α : Type} [DecidableEq κ] (l : List (κ × α)) (k : κ) (a b : α) :
    alistSet (alistSet l k a) k b = alistSet l k b := by
  induction l with
  | nil => simp [alistSet]
  | cons e rest ih =>
      by_cases he : e.1 = k
      · simp [alistSet, he]
      · simp [alistSet, he, ih]

theorem runMutation_fields {R : Type} (st : Store) (ty : String) (path : Option String)
    (payload : StoreVal) (apply : Store → ApplyResult R) (hbag : st.middlewareBag = []) :
    (runMutation st ty path payload apply).1.fields =
      (apply { st with epoch := st.epoch + 1 }).store.fields := by
  simp only [runMutation, hbag, runChain]
  repeat' split
  all_goals rfl

/-- The record state both write paths of `setControlledValue` leave at the
path: controlled mode, the new value, and dirtiness recomputed from
`!Object.is(value, initialValue)`; every other record field is untouched. -/
def targetRecord (r : FieldRecord) (v : StoreVal) : FieldRecord :=
  { r with mode := Mode.controlled, controlledValue := v, dirty := v != r.initialValue }

theorem record_write_uniform (record : FieldRecord) (v : StoreVal) :
    (if (record.dirty != (v != record.initialValue))
      then { (if (record.controlledValue != v)
              then { record with controlledValue := v } else record) with
              dirty := (v != record.initialValue) }
      else (if (record.controlledValue != v)
              then { record with controlledValue := v } else record)) =
    { record with controlledValue := v, dirty := v != record.initialValue } := by
  obtain ⟨rmode, rval, rvals, rinit, rcv, rucv, rt, rd, rerr, rmeta, rep⟩ := record
  simp only
  by_cases hvc : rcv = v
  · subst hvc
    by_cases hdc : rd = (rcv != rinit)
    · subst hdc
      simp
    · simp [bne_iff_ne.mpr hdc]
  · by_cases hdc : rd = (v != rinit)
    · subst hdc
      simp [bne_iff_ne.mpr hvc]
    · simp [bne_iff_ne.mpr hvc, bne_iff_ne.mpr hdc]

theorem setControlledValueApply_fields (st2 : Store) (p : String) (v : StoreVal)
    (r2 : FieldRecord) (h2 : alistGet st2.fields p = some r2) :
    (setControlledValueApply p v st2).store.fields =
      if !(r2.controlledValue != v) && !(r2.dirty != (v != r2.initialValue)) then st2.fields
      else alistSet st2.fields p
            { r2 with controlledValue := v, dirty := v != r2.initialValue } := by
  simp only [setControlledValueApply, h2]
  by_cases hq : (!(r2.controlledValue != v) && !(r2.dirty != (v != r2.initialValue))) = true
  · simp [hq]
  · simp only [Bool.not_eq_true] at hq
    simp only [hq, Bool.false_eq_true, if_false]
    rw [← record_write_uniform r2 v]

theorem eq_of_bne_eq_false {α : Type} [DecidableEq α] {a b : α} (h : (a != b) = false) :
    a = b := by
  by_contra hne
  rw [bne_iff_ne.mpr hne] at h
  exact Bool.true_eq_false.mp h

theorem mode_switch_record (r : FieldRecord) :
    (if r.mode = Mode.controlled then r else { r with mode := Mode.controlled }) =
      { r with mode := Mode.controlled } := by
  obtain ⟨rmode, rval, rvals, rinit, rcv, rucv, rt, rd, rerr, rmeta, rep⟩ := r
  by_cases hm : rmode = Mode.controlled
  · simp only at hm
    subst hm
    simp
  · simp only at hm
    simp [hm]

theorem controlled_record_eta (r : FieldRecord) (hm : r.mode = Mode.controlled) :
    ({ r with mode := Mode.controlled } : FieldRecord) = r := by
  obtain ⟨rmode, rval, rvals, rinit, rcv, rucv, rt, rd, rerr, rmeta, rep⟩ := r
  simp only at hm
  subst hm
  rfl

theorem setControlledValue_fields (st : Store) (p : String) (v : StoreVal) (r : FieldRecord)
    (hbag : st.middlewareBag = []) (hr : alistGet st.fields p = some r) :
    (setControlledValue st p v).1.fields = alistSet st.fields p (targetRecord r v) := by
  simp only [setControlledValue, hr, mode_switch_record]
  set R : FieldRecord := { r with mode := Mode.controlled } with hRdef
  set ST1 : Store :=
    (if r.mode = Mode.controlled then st else { st with fields := alistSet st.fields p R })
    with hST1def
  have hST1fields : ST1.fields = alistSet st.fields p R := by
    rw [hST1def]
    by_cases hm : r.mode = Mode.controlled
    · rw [if_pos hm]
      rw [hRdef, controlled_record_eta r hm, alistSet_get_self st.fields p r hr]
    · rw [if_neg hm]
  have hbag1 : ST1.middlewareBag = [] := by
    rw [hST1def]
    by_cases hm : r.mode = Mode.controlled <;> simp [hm, hbag]
  have hget1 : alistGet ST1.fields p = some R := by
    rw [hST1fields]
    exact alistGet_set_self _ _ _
  have htarget : targetRecord r v = { R with controlledValue := v, dirty := v != R.initialValue } := by
    rw [hRdef]
    rfl
  by_cases hquiet :
      (!(R.controlledValue != v) && !(R.dirty != (v != R.initialValue))) = true
  · simp only [hquiet, if_true]
    have hcv : R.controlledValue = v := by
      have h1 := ((Bool.and_eq_true _ _).mp hquiet).1
      simpa using h1
    have hd : R.dirty = (v != R.initialValue) := by
      have h1 := ((Bool.and_eq_true _ _).mp hquiet).2
      simpa using h1
    have htR : targetRecord r v = R := by
      rw [htarget, ← hd, ← hcv]
    rw [htR, ← hST1fields]
  · simp only [Bool.not_eq_true] at hquiet
    simp only [hquiet, Bool.false_eq_true, if_false]
    by_cases hfast : simpleWriteFastPathEnabled ST1 = true
    · simp only [hfast, if_true]
      rw [record_write_uniform R v, hST1fields, alistSet_alistSet, htarget]
    · simp only [hfast, Bool.false_eq_true, if_false]
      rw [runMutation_fields ST1 _ _ _ _ hbag1]
      have hget2 : alistGet ({ ST1 with epoch := ST1.epoch + 1 } : Store).fields p = some R :=
        hget1
      rw [setControlledValueApply_fields _ p v R hget2]
      simp only [hquiet, Bool.false_eq_true, if_false]
      have hfe : ({ ST1 with epoch := ST1.epoch + 1 } : Store).fields = ST1.fields := rfl
      rw [hfe, hST1fields, alistSet_alistSet, htarget]

theorem setControlledValueFullPath_fields (st : Store) (p : String) (v : StoreVal)
    (r : FieldRecord) (hbag : st.middlewareBag = []) (hr : alistGet st.fields p = some r) :
    (setControlledValueFullPath st p v).1.fields = alistSet st.fields p (targetRecord r v) := by
  simp only [setControlledValueFullPath, hr, mode_switch_record]
  set R : FieldRecord := { r with mode := Mode.controlled } with hRdef
  set ST1 : Store :=
    (if r.mode = Mode.controlled then st else { st with fields := alistSet st.fields p R })
    with hST1def
  have hST1fields : ST1.fields = alistSet st.fields p R := by
    rw [hST1def]
    by_cases hm : r.mode = Mode.controlled
    · rw [if_pos hm]
      rw [hRdef, controlled_record_eta r hm, alistSet_get_self st.fields p r hr]
    · rw [if_neg hm]
  have hbag1 : ST1.middlewareBag = [] := by
    rw [hST1def]
    by_cases hm : r.mode = Mode.controlled <;> simp [hm, hbag]
  have hget1 : alistGet ST1.fields p = some R := by
    rw [hST1fields]
    exact alistGet_set_self _ _ _
  have htarget : targetRecord r v = { R with controlledValue := v, dirty := v != R.initialValue } := by
    rw [hRdef]
    rfl
  by_cases hquiet :
      (!(R.controlledValue != v) && !(R.dirty != (v != R.initialValue))) = true
  · simp only [hquiet, if_true]
    have hcv : R.controlledValue = v := by
      have h1 := ((Bool.and_eq_true _ _).mp hquiet).1
      simpa using h1
    have hd : R.dirty = (v != R.initialValue) := by
      have h1 := ((Bool.and_eq_true _ _).mp hquiet).2
      simpa using h1
    have htR : targetRecord r v = R := by
      rw [htarget, ← hd, ← hcv]
    rw [htR, ← hST1fields]
  · simp only [Bool.not_eq_true] at hquiet
    simp only [hquiet, Bool.false_eq_true, if_false]
    rw [runMutation_fields ST1 _ _ _ _ hbag1]
    have hget2 : alistGet ({ ST1 with epoch := ST1.epoch + 1 } : Store).fields p = some R :=
      hget1
    rw [setControlledValueApply_fields _ p v R hget2]
    simp only [hquiet, Bool.false_eq_true, if_false]
    have hfe : ({ ST1 with epoch := ST1.epoch + 1 } : Store).fields = ST1.fields := rfl
    rw [hfe, hST1fields, alistSet_alistSet, htarget]

/-- C1: when the fast path is eligible (no middleware, no subscribers, no
watchers, no event listeners) and the path is registered, the direct-write
fast path of `setControlledValue` leaves the whole field table, and in
particular the field record at the path, in exactly the state the full
middleware-routed path produces: controlled mode, `controlledValue` equal to
the new value, `dirty` recomputed as `!Object.is(value, initialValue)`, and
every other record field untouched. -/
theorem fastPath_refines_fullPath (st : Store) (p : String) (v : StoreVal) (r : FieldRecord)
    (hbag : st.middlewareBag = []) (_hsubs : st.subscriptions = [])
    (_hsubc : st.subscriberCount = 0) (_hw : st.totalSpecificWatchers = 0)
    (_hwc : st.wildcardWatchers = []) (_hev : st.totalEventListeners = 0)
    (hr : alistGet st.fields p = some r) :
    (setControlledValue st p v).1.fields = (setControlledValueFullPath st p v).1.fields ∧
    alistGet (setControlledValue st p v).1.fields p =
      some { r with mode := Mode.controlled, controlledValue := v,
                    dirty := v != r.initialValue } := by
  constructor
  · rw [setControlledValue_fields st p v r hbag hr,
      setControlledValueFullPath_fields st p v r hbag hr]
  · rw [setControlledValue_fields st p v r hbag hr]
    exact alistGet_set_self _ _ _

theorem fastPath_refines_fullPath_witness :
    (let st : Store :=
      { emptyStore with
          fields := [("count", { mode := Mode.controlled, initialValue := .num 1,
                                 controlledValue := .num 1, uncontrolledValue := .num 1 })] }
     (setControlledValue st "count" (.num 2)).1.fields =
        (setControlledValueFullPath st "count" (.num 2)).1.fields ∧
      alistGet (setControlledValue st "count" (.num 2)).1.fields "count" =
        some { mode := Mode.controlled, initialValue := .num 1, controlledValue := .num 2,
               uncontrolledValue := .num 1, dirty := true }) :=
  fastPath_refines_fullPath _ "count" (.num 2)
    { mode := Mode.controlled, initialValue := .num 1, controlledValue := .num 1,
      uncontrolledValue := .num 1 }
    rfl rfl rfl rfl rfl rfl rfl

/-- C10: for a registered path, when the written value is `Object.is`-equal to
the current controlled value and the recomputed dirty flag equals the stored
one, `setControlledValue` returns before reaching either write path — no
middleware runs, no commit event is emitted and no notification is scheduled,
whatever middleware, subscribers, watchers or listeners the store has — with
the single exception that a field not in controlled mode still has its mode
switched to controlled. -/
theorem setControlledValue_noop_frame (st : Store) (p : String) (v : StoreVal)
    (r : FieldRecord) (hr : alistGet st.fields p = some r)
    (hval : r.controlledValue = v) (hdirty : r.dirty = (v != r.initialValue)) :
    setControlledValue st p v =
      ((if r.mode = Mode.controlled then st
        else { st with fields := alistSet st.fields p { r with mode := Mode.controlled } }),
       { warnedModeSwitch := decide (r.mode ≠ Mode.controlled) }) := by
  simp only [setControlledValue, hr, mode_switch_record]
  have hq : (!(({ r with mode := Mode.controlled } : FieldRecord).controlledValue != v) &&
      !(({ r with mode := Mode.controlled } : FieldRecord).dirty !=
        (v != ({ r with mode := Mode.controlled } : FieldRecord).initialValue))) = true := by
    have h1 : ({ r with mode := Mode.controlled } : FieldRecord).controlledValue = v := hval
    have h2 : ({ r with mode := Mode.controlled } : FieldRecord).dirty =
        (v != ({ r with mode := Mode.controlled } : FieldRecord).initialValue) := hdirty
    rw [h1, h2]
    simp
  rw [if_pos hq]

theorem setControlledValue_noop_frame_witness :
    (let st : Store :=
      { emptyStore with
          fields := [("flag", { mode := Mode.uncontrolled, initialValue := .num 3,
                                controlledValue := .num 3, uncontrolledValue := .num 3 })],
          middlewareBag := [fun ctx => some ctx],
          subscriberCount := 1,
          totalEventListeners := 1 }
     let target : FieldRecord :=
      { mode := Mode.controlled, initialValue := .num 3, controlledValue := .num 3,
        uncontrolledValue := .num 3 }
     setControlledValue st "flag" (.num 3) =
      ({ st with fields := alistSet st.fields "flag" target },
       { warnedModeSwitch := true })) := by
  have h := setControlledValue_noop_frame
    { emptyStore with
        fields := [("flag", { mode := Mode.uncontrolled, initialValue := .num 3,
                              controlledValue := .num 3, uncontrolledValue := .num 3 })],
        middlewareBag := [fun ctx => some ctx],
        subscriberCount := 1,
        totalEventListeners := 1 }
    "flag" (.num 3)
    { mode := Mode.uncontrolled, initialValue := .num 3, controlledValue := .num 3,
      uncontrolledValue := .num 3 }
    rfl rfl rfl
  simpa using h

/-! ### register -/

/-- The record stored by one `register` call, translated from the source:
merge into the existing record when the path is already registered (never
create a second record), default the mode (`opts.mode ?? existing mode ??
"uncontrolled"`), coalesce the baseline with `??`, reset baseline / value
mirrors / dirty when an initial value is supplied or on first registration
(the controlled mirror only in controlled mode), backfill undefined mirrors
from the baseline, and store `meta` when supplied.  The validator wiring is
in `registerValidatorsMap`. -/
def registerRecord (path : String) (opts : RegisterOptions) (st : Store) : FieldRecord :=
  let existing := alistGet st.fields path
  let mode := opts.mode.getD
    (match existing with
      | some r => r.mode
      | none => Mode.uncontrolled)
  let nextInitialValue := jsCoalesce opts.initialValue
    (match existing with
      | some r => r.initialValue
      | none => .undef)
  let record0 : FieldRecord :=
    match existing with
    | some r => r
    | none =>
        { mode := mode, initialValue := nextInitialValue, controlledValue := nextInitialValue,
          uncontrolledValue := nextInitialValue, touched := false, dirty := false,
          error := none, epoch := 0 }
  let record1 := { record0 with mode := mode }
  let record2 :=
    if nextInitialValue ≠ .undef ∧ (opts.initialValue ≠ .undef ∨ existing = none) then
      { record1 with
          initialValue := nextInitialValue,
          controlledValue :=
            if record1.mode = Mode.controlled then nextInitialValue
            else record1.controlledValue,
          uncontrolledValue := nextInitialValue,
          dirty := false }
    else record1
  let record3 :=
    if record2.mode = Mode.controlled ∧ record2.controlledValue = .undef then
      { record2 with controlledValue := record2.initialValue }
    else record2
  let record4 :=
    if record3.mode = Mode.uncontrolled ∧ record3.uncontrolledValue = .undef then
      { record3 with uncontrolledValue := record3.initialValue }
    else record3
  let record5 := if opts.meta ≠ .undef then { record4 with meta := opts.meta } else record4
  { record5 with
      validators :=
        match opts.validate with
        | some vid => some (setAdd ((alistGet st.fieldValidators path).getD []) vid)
        | none => alistGet st.fieldValidators path,
      validator :=
        match opts.validate with
        | some vid => some vid
        | none => record5.validator }

/-- The `fieldValidators` map after one `register` call: when a validator is
supplied it is added (as into a `Set`, so idempotently) to the shared entry
for the path, which is created on demand; otherwise the map is untouched. -/
def registerValidatorsMap (path : String) (opts : RegisterOptions) (st : Store) :
    List (String × List Nat) :=
  match opts.validate with
  | some vid =>
      alistSet st.fieldValidators path (setAdd ((alistGet st.fieldValidators path).getD []) vid)
  | none => st.fieldValidators

/-- The terminal apply step of the `register` mutation: store the merged
record and the updated validator map; `register` always reports `changed`. -/
def registerApply (path : String) (opts : RegisterOptions) (st : Store) :
    ApplyResult Unit :=
  { store :=
      { st with
          fields := alistSet st.fields path (registerRecord path opts st),
          fieldValidators := registerValidatorsMap path opts st },
    changed := true, value := () }

/-- `register`, routed through the mutation pipeline.  The source also builds
and returns the unregister cleanup closure; the claims below are about the
record state, so the model returns the pipeline effects instead.  The context
payload (the options object) is opaque to the modelled middleware. -/
def register (st : Store) (path : String) (opts : RegisterOptions) : Store × MutEffects :=
  let out := runMutation st "register" (some path) .undef (registerApply path opts)
  (out.1, out.2.2)

theorem runMutation_fieldValidators {R : Type} (st : Store) (ty : String)
    (path : Option String) (payload : StoreVal) (apply : Store → ApplyResult R)
    (hbag : st.middlewareBag = []) :
    (runMutation st ty path payload apply).1.fieldValidators =
      (apply { st with epoch := st.epoch + 1 }).store.fieldValidators := by
  simp only [runMutation, hbag, runChain]
  repeat' split
  all_goals rfl

theorem runMutation_middlewareBag {R : Type} (st : Store) (ty : String)
    (path : Option String) (payload : StoreVal) (apply : Store → ApplyResult R)
    (hpres : (apply { st with epoch := st.epoch + 1 }).store.middlewareBag =
      st.middlewareBag) :
    (runMutation st ty path payload apply).1.middlewareBag = st.middlewareBag := by
  simp only [runMutation]
  repeat' split
  all_goals (first | rfl | exact hpres)

theorem registerApply_middlewareBag (path : String) (opts : RegisterOptions) (st : Store) :
    (registerApply path opts st).store.middlewareBag = st.middlewareBag := by
  simp only [registerApply]

theorem setControlledValueApply_middlewareBag (path : String) (v : StoreVal) (st : Store) :
    (setControlledValueApply path v st).store.middlewareBag = st.middlewareBag := by
  simp only [setControlledValueApply]
  repeat' split
  all_goals rfl

theorem register_middlewareBag (st : Store) (path : String) (opts : RegisterOptions) :
    (register st path opts).1.middlewareBag = st.middlewareBag := by
  simp only [register]
  exact runMutation_middlewareBag _ _ _ _ _ (registerApply_middlewareBag _ _ _)

theorem setControlledValue_middlewareBag (st : Store) (path : String) (v : StoreVal) :
    (setControlledValue st path v).1.middlewareBag = st.middlewareBag := by
  simp only [setControlledValue]
  repeat' split
  all_goals
    first
      | rfl
      | exact runMutation_middlewareBag _ _ _ _ _ (setControlledValueApply_middlewareBag _ _ _)

theorem mem_setAdd_of_mem {α : Type} [DecidableEq α] {l : List α} {x a : α} (h : x ∈ l) :
    x ∈ setAdd l a := by
  unfold setAdd
  split
  · exact h
  · exact List.mem_append_left _ h

theorem mem_alistSet_keys {κ α : Type} [DecidableEq κ] (l : List (κ × α)) (k : κ) (v : α) :
    ∀ x ∈ (alistSet l k v).map Prod.fst, x ∈ l.map Prod.fst ∨ x = k := by
  induction l with
  | nil =>
      intro x hx
      simp [alistSet] at hx
      exact Or.inr hx
  | cons e rest ih =>
      intro x hx
      by_cases he : e.1 = k
      · simp only [alistSet, if_pos he, List.map_cons, List.mem_cons] at hx
        rcases hx with h | h
        · exact Or.inr h
        · exact Or.inl (List.mem_cons_of_mem _ (by simpa using h))
      · simp only [alistSet, if_neg he, List.map_cons, List.mem_cons] at hx
        rcases hx with h | h
        · exact Or.inl (by simp [h])
        · rcases ih x (by simpa using h) with h2 | h2
          · exact Or.inl (List.mem_cons_of_mem _ h2)
          · exact Or.inr h2

theorem alistSet_keys_nodup {κ α : Type} [DecidableEq κ] (l : List (κ × α)) (k : κ) (v : α)
    (h : (l.map Prod.fst).Nodup) : ((alistSet l k v).map Prod.fst).Nodup := by
  induction l with
  | nil => simp [alistSet]
  | cons e rest ih =>
      simp only [List.map_cons, List.nodup_cons] at h
      by_cases he : e.1 = k
      · simp only [alistSet, if_pos he, List.map_cons, List.nodup_cons]
        exact ⟨by rw [← he]; exact h.1, h.2⟩
      · simp only [alistSet, if_neg he, List.map_cons, List.nodup_cons]
        refine ⟨?_, ih h.2⟩
        intro hmem
        rcases mem_alistSet_keys rest k v e.1 hmem with h2 | h2
        · exact h.1 h2
        · exact he h2


theorem registerRecord_touched (p : String) (opts : RegisterOptions) (st : Store)
    (rOld : FieldRecord) (hr : alistGet st.fields p = some rOld) :
    (registerRecord p opts st).touched = rOld.touched := by
  simp only [registerRecord, hr]
  repeat' split
  all_goals rfl

theorem registerRecord_reset (p : String) (opts : RegisterOptions) (st : Store)
    (rOld : FieldRecord) (hr : alistGet st.fields p = some rOld)
    (hnn : nullish opts.initialValue = false) :
    (registerRecord p opts st).dirty = false ∧
    (registerRecord p opts st).initialValue = opts.initialValue ∧
    (registerRecord p opts st).uncontrolledValue = opts.initialValue ∧
    ((registerRecord p opts st).mode = Mode.controlled →
      (registerRecord p opts st).controlledValue = opts.initialValue) := by
  have hundef : opts.initialValue ≠ .undef := by
    intro h
    rw [h] at hnn
    simp [nullish] at hnn
  have hcoal : jsCoalesce opts.initialValue rOld.initialValue = opts.initialValue := by
    simp [jsCoalesce, hnn]
  have hcond : opts.initialValue ≠ StoreVal.undef ∧
      (opts.initialValue ≠ StoreVal.undef ∨ (some rOld : Option FieldRecord) = none) :=
    ⟨hundef, Or.inl hundef⟩
  simp only [registerRecord, hr, hcoal]
  rw [if_pos hcond]
  by_cases hm : opts.mode.getD rOld.mode = Mode.controlled <;>
    by_cases hmeta : opts.meta = StoreVal.undef <;>
      simp [hm, hmeta, hundef]

theorem registerRecord_reset_null (p : String) (opts : RegisterOptions) (st : Store)
    (rOld : FieldRecord) (hr : alistGet st.fields p = some rOld)
    (hv : opts.initialValue = .vnull) (hb : rOld.initialValue ≠ .undef) :
    (registerRecord p opts st).dirty = false ∧
    (registerRecord p opts st).initialValue = rOld.initialValue ∧
    (registerRecord p opts st).uncontrolledValue = rOld.initialValue ∧
    ((registerRecord p opts st).mode = Mode.controlled →
      (registerRecord p opts st).controlledValue = rOld.initialValue) := by
  have hcoal : jsCoalesce opts.initialValue rOld.initialValue = rOld.initialValue := by
    rw [hv]
    simp [jsCoalesce, nullish]
  have hvu : opts.initialValue ≠ StoreVal.undef := by
    rw [hv]
    decide
  have hcond : rOld.initialValue ≠ StoreVal.undef ∧
      (opts.initialValue ≠ StoreVal.undef ∨ (some rOld : Option FieldRecord) = none) :=
    ⟨hb, Or.inl hvu⟩
  simp only [registerRecord, hr, hcoal]
  rw [if_pos hcond]
  by_cases hm : opts.mode.getD rOld.mode = Mode.controlled <;>
    by_cases hmeta : opts.meta = StoreVal.undef <;>
      simp [hm, hmeta, hb]

theorem registerValidatorsMap_superset (p : String) (opts : RegisterOptions) (st : Store)
    (vids : List Nat) (hv : alistGet st.fieldValidators p = some vids) :
    ∃ vids2, alistGet (registerValidatorsMap p opts st) p = some vids2 ∧
      ∀ x ∈ vids, x ∈ vids2 := by
  cases hov : opts.validate with
  | none => exact ⟨vids, by simp [registerValidatorsMap, hov, hv], fun x hx => hx⟩
  | some vid =>
      refine ⟨setAdd vids vid, ?_, fun x hx => mem_setAdd_of_mem hx⟩
      simp [registerValidatorsMap, hov, hv, alistGet_set_self]

/-- C2 (amended): while a path is registered it maps to exactly one record —
re-registering updates the field table in place, preserving key uniqueness —
and `register` on an already-registered path merges into the existing record:
`touched` and every previously attached validator survive.  When a
non-nullish `initialValue` is supplied, `dirty` is reset to false, the
baseline and the uncontrolled mirror are overwritten with it, and the
controlled mirror is overwritten when the resulting mode is controlled (in
uncontrolled mode it keeps its previous value — see the counterexample).  A
supplied `null` initial value first coalesces against the previous baseline
(`options.initialValue ?? record.initialValue`), so when that baseline is
defined the reset guard (`nextInitialValue !== undefined` and the value was
supplied) still passes: `dirty` is reset and the mirrors are overwritten with
the old baseline, never with `null`. -/
theorem register_merges_existing (st : Store) (p : String) (opts : RegisterOptions)
    (rOld : FieldRecord) (hbag : st.middlewareBag = [])
    (hr : alistGet st.fields p = some rOld) :
    ((st.fields.map Prod.fst).Nodup → ((register st p opts).1.fields.map Prod.fst).Nodup) ∧
    (alistGet (register st p opts).1.fields p).isSome ∧
    (∀ rNew, alistGet (register st p opts).1.fields p = some rNew →
      rNew.touched = rOld.touched ∧
      (nullish opts.initialValue = false →
        rNew.dirty = false ∧ rNew.initialValue = opts.initialValue ∧
        rNew.uncontrolledValue = opts.initialValue ∧
        (rNew.mode = Mode.controlled → rNew.controlledValue = opts.initialValue)) ∧
      (opts.initialValue = .vnull → rOld.initialValue ≠ .undef →
        rNew.dirty = false ∧ rNew.initialValue = rOld.initialValue ∧
        rNew.uncontrolledValue = rOld.initialValue ∧
        (rNew.mode = Mode.controlled → rNew.controlledValue = rOld.initialValue))) ∧
    (∀ vids, alistGet st.fieldValidators p = some vids →
      ∃ vids2, alistGet (register st p opts).1.fieldValidators p = some vids2 ∧
        ∀ x ∈ vids, x ∈ vids2) := by
  have hF : (register st p opts).1.fields =
      alistSet st.fields p (registerRecord p opts { st with epoch := st.epoch + 1 }) := by
    simp only [register]
    rw [runMutation_fields _ _ _ _ _ hbag]
    rfl
  have hV : (register st p opts).1.fieldValidators =
      registerValidatorsMap p opts { st with epoch := st.epoch + 1 } := by
    simp only [register]
    rw [runMutation_fieldValidators _ _ _ _ _ hbag]
    rfl
  have hr0 : alistGet ({ st with epoch := st.epoch + 1 } : Store).fields p = some rOld := hr
  refine ⟨?_, ?_, ?_, ?_⟩
  · intro hnd
    rw [hF]
    exact alistSet_keys_nodup _ _ _ hnd
  · rw [hF, alistGet_set_self]
    rfl
  · intro rNew h
    rw [hF, alistGet_set_self] at h
    injection h with h2
    subst h2
    exact ⟨registerRecord_touched p opts _ rOld hr0,
      fun hnn => registerRecord_reset p opts _ rOld hr0 hnn,
      fun hv hb => registerRecord_reset_null p opts _ rOld hr0 hv hb⟩
  · intro vids hv
    rw [hV]
    exact registerValidatorsMap_superset p opts _ vids hv

/-- A small registered store used to witness the register-merge theorem. -/
def c2Store : Store :=
  { emptyStore with
      fields := [("email", { mode := Mode.uncontrolled, initialValue := .str "",
                             controlledValue := .str "", uncontrolledValue := .str "a",
                             touched := true })],
      fieldValidators := [("email", [7])] }

theorem register_merges_existing_witness :
    c2Store.middlewareBag = [] ∧
    alistGet c2Store.fields "email" =
      some { mode := Mode.uncontrolled, initialValue := .str "",
             controlledValue := .str "", uncontrolledValue := .str "a",
             touched := true } ∧
    ((register c2Store "email" { initialValue := .str "b" }).1.fields.map Prod.fst).Nodup ∧
    (alistGet (register c2Store "email" { initialValue := .str "b" }).1.fields "email").isSome := by
  have h := register_merges_existing c2Store "email" { initialValue := .str "b" }
    { mode := Mode.uncontrolled, initialValue := .str "", controlledValue := .str "",
      uncontrolledValue := .str "a", touched := true } rfl rfl
  exact ⟨rfl, rfl, h.1 (by decide), h.2.1⟩

/-- C2 counterexample: register `p` uncontrolled with baseline `1`, write `5`
through `setControlledValue` (which switches the field to controlled mode),
then re-register with `mode: "uncontrolled"` and `initialValue: 2`.  The
claim requires both value mirrors to be overwritten with `2`, but the source
only overwrites the controlled mirror in controlled mode: the resulting
record keeps `controlledValue = 5`. -/
theorem register_mirror_counterexample :
    alistGet ((register
        ((setControlledValue ((register emptyStore "p" { initialValue := .num 1 }).1)
          "p" (.num 5)).1)
        "p" { mode := some Mode.uncontrolled, initialValue := .num 2 }).1).fields "p" =
      some { mode := Mode.uncontrolled, validator := none, validators := none,
             initialValue := .num 2, controlledValue := .num 5, uncontrolledValue := .num 2,
             touched := false, dirty := false, error := none, meta := .undef, epoch := 0 } ∧
    StoreVal.num 5 ≠ StoreVal.num 2 := by
  constructor
  · rfl
  · decide

theorem registerRecord_fresh_controlled (p : String) (v1 : StoreVal) (st : Store)
    (hr : alistGet st.fields p = none) (hnn : v1 ≠ .vnull) :
    registerRecord p { mode := some Mode.controlled, initialValue := v1 } st =
      { mode := Mode.controlled, validator := none,
        validators := alistGet st.fieldValidators p, initialValue := v1,
        controlledValue := v1, uncontrolledValue := v1, touched := false, dirty := false,
        error := none, meta := .undef, epoch := 0 } := by
  by_cases hu : v1 = .undef
  · subst hu
    simp [registerRecord, hr, jsCoalesce, nullish]
  · have hnul : nullish v1 = false := by
      cases v1 <;> simp_all [nullish]
    simp [registerRecord, hr, jsCoalesce, hnul, hu]

/-- C3 (amended): for `v1 ≠ v2` under `Object.is` and a path not yet
registered, registering it in controlled mode with baseline `v1` and then
writing `v2` makes `getDirty` true, and writing `v1` back makes it false —
provided `v1` is not `null`.  (In the source `opts.initialValue ?? …`
coalesces a `null` baseline away, so the stored baseline becomes `undefined`
and the round trip fails at `v1 = null`; see the counterexample.) -/
theorem register_set_dirty_roundtrip (st : Store) (p : String) (v1 v2 : StoreVal)
    (hbag : st.middlewareBag = []) (hfresh : alistGet st.fields p = none)
    (hnn : v1 ≠ .vnull) (hne : v1 ≠ v2) :
    (setControlledValue
        (register st p { mode := some Mode.controlled, initialValue := v1 }).1 p v2).1.getDirty
      p = true ∧
    (setControlledValue
        (setControlledValue
          (register st p { mode := some Mode.controlled, initialValue := v1 }).1 p v2).1
        p v1).1.getDirty p = false := by
  set R : FieldRecord :=
    { mode := Mode.controlled, validator := none,
      validators := alistGet st.fieldValidators p, initialValue := v1,
      controlledValue := v1, uncontrolledValue := v1, touched := false, dirty := false,
      error := none, meta := .undef, epoch := 0 } with hRdef
  have hfresh0 : alistGet ({ st with epoch := st.epoch + 1 } : Store).fields p = none := hfresh
  have hF1 : (register st p { mode := some Mode.controlled, initialValue := v1 }).1.fields =
      alistSet st.fields p R := by
    simp only [register]
    rw [runMutation_fields _ _ _ _ _ hbag]
    show alistSet st.fields p
        (registerRecord p { mode := some Mode.controlled, initialValue := v1 }
          { st with epoch := st.epoch + 1 }) = alistSet st.fields p R
    rw [registerRecord_fresh_controlled p v1 _ hfresh0 hnn]
  have hbag1 : (register st p
      { mode := some Mode.controlled, initialValue := v1 }).1.middlewareBag = [] := by
    rw [register_middlewareBag]
    exact hbag
  have hget1 : alistGet
      (register st p { mode := some Mode.controlled, initialValue := v1 }).1.fields p =
      some R := by
    rw [hF1]
    exact alistGet_set_self _ _ _
  have hF2 : (setControlledValue
      (register st p { mode := some Mode.controlled, initialValue := v1 }).1 p v2).1.fields =
      alistSet (register st p
        { mode := some Mode.controlled, initialValue := v1 }).1.fields p (targetRecord R v2) :=
    setControlledValue_fields _ p v2 R hbag1 hget1
  have hget2 : alistGet (setControlledValue
      (register st p { mode := some Mode.controlled, initialValue := v1 }).1 p v2).1.fields p =
      some (targetRecord R v2) := by
    rw [hF2]
    exact alistGet_set_self _ _ _
  constructor
  · show snapGetDirty _ p = true
    rw [snapGetDirty, hget2]
    simp only [targetRecord]
    exact bne_iff_ne.mpr fun h => hne h.symm
  · have hbag2 : (setControlledValue
        (register st p { mode := some Mode.controlled, initialValue := v1 }).1
        p v2).1.middlewareBag = [] := by
      rw [setControlledValue_middlewareBag]
      exact hbag1
    have hF3 := setControlledValue_fields _ p v1 (targetRecord R v2) hbag2 hget2
    show snapGetDirty _ p = false
    rw [snapGetDirty, hF3, alistGet_set_self]
    simp [targetRecord]

theorem register_set_dirty_roundtrip_witness :
    (emptyStore.middlewareBag = [] ∧
      alistGet emptyStore.fields "count" = none ∧
      StoreVal.num 1 ≠ StoreVal.vnull ∧ StoreVal.num 1 ≠ StoreVal.num 2) ∧
    (setControlledValue
        (register emptyStore "count"
          { mode := some Mode.controlled, initialValue := .num 1 }).1 "count"
        (.num 2)).1.getDirty "count" = true ∧
    (setControlledValue
        (setControlledValue
          (register emptyStore "count"
            { mode := some Mode.controlled, initialValue := .num 1 }).1 "count" (.num 2)).1
        "count" (.num 1)).1.getDirty "count" = false :=
  ⟨⟨rfl, rfl, by decide, by decide⟩,
    register_set_dirty_roundtrip emptyStore "count" (.num 1) (.num 2)
      rfl rfl (by decide) (by decide)⟩

/-- C3 counterexample: with `v1 = null` and `v2 = undefined` (distinct by
`Object.is`), registering with `initialValue: null` coalesces the baseline to
`undefined`, so the subsequent `setControlledValue(p, undefined)` is a no-op
and `getDirty` stays false, contradicting the claim that it becomes true for
every pair `v1 ≠ v2`. -/
theorem register_set_dirty_counterexample :
    StoreVal.vnull ≠ StoreVal.undef ∧
    (setControlledValue
        (register emptyStore "p"
          { mode := some Mode.controlled, initialValue := .vnull }).1 "p"
        .undef).1.getDirty "p" = false := by
  constructor
  · decide
  · rfl

/-! ### subscribe -/

theorem alistGet_remove_self {κ α : Type} [DecidableEq κ] (l : List (κ × α)) (k : κ) :
    alistGet (alistRemove l k) k = none := by
  induction l with
  | nil => rfl
  | cons e rest ih =>
      by_cases he : e.1 = k
      · simp [alistRemove, he, ih]
      · simp [alistRemove, he, alistGet, ih]

theorem alistGet_remove_ne {κ α : Type} [DecidableEq κ] (l : List (κ × α)) (k k' : κ)
    (h : k' ≠ k) : alistGet (alistRemove l k) k' = alistGet l k' := by
  induction l with
  | nil => rfl
  | cons e rest ih =>
      by_cases he : e.1 = k
      · rw [alistRemove, if_pos he, ih, alistGet, if_neg (by rw [he]; exact fun hh => h hh.symm)]
      · rw [alistRemove, if_neg he, alistGet, alistGet, ih]

theorem not_mem_setRemove {α : Type} [DecidableEq α] (l : List α) (a : α) :
    a ∉ setRemove l a := by
  intro h
  simp [setRemove] at h

/-- Result of one `subscribe` call: the new store, the identity of the created
subscription object, and the callback invocations made synchronously during
the call (callback id with delivered value). -/
structure SubscribeOut where
  store : Store
  subId : Nat
  calls : List (Nat × StoreVal)

/-- Add a subscription id to one path bucket of the path-to-subscribers
index, creating the bucket on demand (the indexing loop in `subscribe` and in
the flush). -/
def indexAdd (idx : List (String × List Nat)) (p : String) (i : Nat) :
    List (String × List Nat) :=
  match alistGet idx p with
  | some bucket => alistSet idx p (setAdd bucket i)
  | none => alistSet idx p [i]

/-- Remove a subscription id from one path bucket, deleting the bucket when
it becomes empty (the unsubscribe closure in the source). -/
def indexRemove (idx : List (String × List Nat)) (p : String) (i : Nat) :
    List (String × List Nat) :=
  match alistGet idx p with
  | some bucket =>
      if (setRemove bucket i).isEmpty then alistRemove idx p
      else alistSet idx p (setRemove bucket i)
  | none => idx

/-- `subscribe`, translated from the source: run the selector once against
the dependency-recording snapshot to get the initial value and the recorded
dependency set, add the subscription entry, bump the subscriber count (the
fast-path flag is derived in this model), index the entry under every
recorded path, and invoke the callback synchronously exactly once with the
initial value. -/
def subscribe (st : Store) (sel : SelExpr) (cbId : Nat) : SubscribeOut :=
  let vd := evalSelDeps st.fields sel []
  let entry : Subscription :=
    { id := st.nextSubId, selector := sel, callback := cbId, lastValue := vd.1,
      dependencies := vd.2 }
  { store :=
      { st with
          subscriptions := st.subscriptions ++ [entry],
          subscriberCount := st.subscriberCount + 1,
          subscribersByPath :=
            vd.2.foldl (fun acc p => indexAdd acc p entry.id) st.subscribersByPath,
          nextSubId := st.nextSubId + 1 },
    subId := entry.id,
    calls := [(cbId, vd.1)] }

/-- The unsubscribe closure returned by `subscribe`: delete the subscription
from the subscriber set (decrementing the count when it was present, floored
at zero) and remove it from the index bucket of every path in its current
dependency set. -/
def unsubscribeSub (st : Store) (subId : Nat) : Store :=
  match st.subscriptions.find? (fun s => decide (s.id = subId)) with
  | none => st
  | some entry =>
      { st with
          subscriptions := st.subscriptions.filter (fun s => decide (s.id ≠ subId)),
          subscriberCount := st.subscriberCount - 1,
          subscribersByPath :=
            entry.dependencies.foldl (fun acc p => indexRemove acc p subId)
              st.subscribersByPath }

/-- No existing subscription or index bucket mentions the id that the next
`subscribe` call will allocate (an invariant of every store the source can
build, stated as a hypothesis of the model). -/
def subIdFresh (st : Store) : Prop :=
  (∀ s ∈ st.subscriptions, s.id ≠ st.nextSubId) ∧
  (∀ p bucket, alistGet st.subscribersByPath p = some bucket → st.nextSubId ∉ bucket)

theorem foldl_indexAdd_mem (i : Nat) :
    ∀ (D : List String) (idx : List (String × List Nat)) (p : String) (bucket : List Nat),
      alistGet (D.foldl (fun acc q => indexAdd acc q i) idx) p = some bucket →
      i ∈ bucket →
      p ∈ D ∨ ∃ b0, alistGet idx p = some b0 ∧ i ∈ b0 := by
  intro D
  induction D with
  | nil =>
      intro idx p bucket h hm
      exact Or.inr ⟨bucket, h, hm⟩
  | cons q D2 ih =>
      intro idx p bucket h hm
      rcases ih (indexAdd idx q i) p bucket h hm with h2 | ⟨b0, hb0, hmb0⟩
      · exact Or.inl (List.mem_cons_of_mem _ h2)
      · by_cases hpq : p = q
        · exact Or.inl (hpq ▸ List.mem_cons_self _ _)
        · unfold indexAdd at hb0
          rcases hg : alistGet idx q with _ | bucket0
          · rw [hg] at hb0
            rw [alistGet_set_ne _ _ _ _ hpq] at hb0
            exact Or.inr ⟨b0, hb0, hmb0⟩
          · rw [hg] at hb0
            rw [alistGet_set_ne _ _ _ _ hpq] at hb0
            exact Or.inr ⟨b0, hb0, hmb0⟩

theorem foldl_indexRemove_not_mem (i : Nat) :
    ∀ (D : List String) (idx : List (String × List Nat)) (p : String) (bucket : List Nat),
      alistGet (D.foldl (fun acc q => indexRemove acc q i) idx) p = some bucket →
      i ∈ bucket →
      p ∉ D ∧ ∃ b0, alistGet idx p = some b0 ∧ i ∈ b0 := by
  intro D
  induction D with
  | nil =>
      intro idx p bucket h hm
      exact ⟨List.not_mem_nil p, bucket, h, hm⟩
  | cons q D2 ih =>
      intro idx p bucket h hm
      obtain ⟨hnin, b0, hb0, hmb0⟩ := ih (indexRemove idx q i) p bucket h hm
      have hpq : p ≠ q := by
        intro hpq
        subst hpq
        unfold indexRemove at hb0
        rcases hg : alistGet idx p with _ | bucket0
        · simp only [hg] at hb0
          exact Option.noConfusion hb0
        · simp only [hg] at hb0
          by_cases hempty : (setRemove bucket0 i).isEmpty = true
          · rw [if_pos hempty, alistGet_remove_self] at hb0
            exact Option.noConfusion hb0
          · rw [if_neg hempty, alistGet_set_self] at hb0
            injection hb0 with hb2
            subst hb2
            exact not_mem_setRemove bucket0 i hmb0
      refine ⟨?_, ?_⟩
      · intro hmem
        rcases List.mem_cons.mp hmem with h2 | h2
        · exact hpq h2
        · exact hnin h2
      · unfold indexRemove at hb0
        rcases hg : alistGet idx q with _ | bucket0
        · simp only [hg] at hb0
          exact ⟨b0, hb0, hmb0⟩
        · simp only [hg] at hb0
          by_cases hempty : (setRemove bucket0 i).isEmpty = true
          · rw [if_pos hempty, alistGet_remove_ne _ _ _ hpq] at hb0
            exact ⟨b0, hb0, hmb0⟩
          · rw [if_neg hempty, alistGet_set_ne _ _ _ _ hpq] at hb0
            exact ⟨b0, hb0, hmb0⟩

theorem find?_append_of_none {α : Type} (l1 l2 : List α) (p : α → Bool)
    (h : ∀ x ∈ l1, p x = false) : (l1 ++ l2).find? p = l2.find? p := by
  induction l1 with
  | nil => rfl
  | cons a rest ih =>
      have ha : p a = false := h a (List.mem_cons_self a rest)
      simp only [List.cons_append, List.find?, ha]
      exact ih fun x hx => h x (List.mem_cons_of_mem a hx)

/-- C5: `subscribe(selector, cb)` invokes the callback synchronously exactly
once during the subscribe call itself, with the value the selector produces
against the current snapshot; it stores the subscription with the dependency
set recorded while the selector ran; and the returned unsubscribe function
removes the subscription both from the subscriber set and from every entry of
the path-to-subscribers index under which it was registered. -/
theorem subscribe_spec (st : Store) (sel : SelExpr) (cbId : Nat) (hfresh : subIdFresh st) :
    (subscribe st sel cbId).calls = [(cbId, evalSel st.fields sel)] ∧
    (subscribe st sel cbId).store.subscriptions =
      st.subscriptions ++
        [{ id := st.nextSubId, selector := sel, callback := cbId,
           lastValue := evalSel st.fields sel,
           dependencies := (evalSelDeps st.fields sel []).2 }] ∧
    (∀ s ∈ (unsubscribeSub (subscribe st sel cbId).store
        (subscribe st sel cbId).subId).subscriptions,
      s.id ≠ (subscribe st sel cbId).subId) ∧
    (∀ p bucket,
      alistGet (unsubscribeSub (subscribe st sel cbId).store
          (subscribe st sel cbId).subId).subscribersByPath p = some bucket →
      (subscribe st sel cbId).subId ∉ bucket) := by
  have hfind : ((subscribe st sel cbId).store.subscriptions.find?
      (fun s => decide (s.id = (subscribe st sel cbId).subId))) =
      some { id := st.nextSubId, selector := sel, callback := cbId,
             lastValue := (evalSelDeps st.fields sel []).1,
             dependencies := (evalSelDeps st.fields sel []).2 } := by
    show ((st.subscriptions ++
        [({ id := st.nextSubId, selector := sel, callback := cbId,
            lastValue := (evalSelDeps st.fields sel []).1,
            dependencies := (evalSelDeps st.fields sel []).2 } : Subscription)]).find?
        (fun s => decide (s.id = st.nextSubId))) = _
    rw [find?_append_of_none]
    · simp [List.find?]
    · intro x hx
      simpa using hfresh.1 x hx
  refine ⟨?_, ?_, ?_, ?_⟩
  · simp [subscribe, evalSelDeps_fst]
  · simp [subscribe, evalSelDeps_fst]
  · intro s hs
    simp only [unsubscribeSub, hfind] at hs
    have := (List.mem_filter.mp hs).2
    simpa using this
  · intro p bucket hgb hmem
    simp only [unsubscribeSub, hfind] at hgb
    obtain ⟨hnin, b0, hb0, hmb0⟩ :=
      foldl_indexRemove_not_mem _ _ _ p bucket hgb hmem
    rcases foldl_indexAdd_mem _ _ _ p b0 hb0 hmb0 with h2 | ⟨b1, hb1, hmb1⟩
    · exact hnin h2
    · exact hfresh.2 p b1 hb1 hmb1

theorem subscribe_spec_witness :
    subIdFresh emptyStore ∧
    (subscribe emptyStore (.getTouched "flag") 9).calls = [(9, .vbool false)] :=
  ⟨⟨fun s hs => absurd hs (List.not_mem_nil s), fun _ _ hb => Option.noConfusion hb⟩,
    by
      have h := subscribe_spec emptyStore (.getTouched "flag") 9
        ⟨fun s hs => absurd hs (List.not_mem_nil s), fun _ _ hb => Option.noConfusion hb⟩
      rw [h.1]
      rfl⟩

/-! ### watch -/

/-- Token standing for the unsubscribe closure returned by `watch`: `noop`
for an ignored wildcard registration, otherwise the pattern and identity of
the created watcher entry. -/
inductive WatchToken where
  | noop
  | entry (pattern : String) (id : Nat)
deriving DecidableEq, Repr

/-- The check `pattern.includes("*")`, evaluated over the character list. -/
def includesChar (s : String) (c : Char) : Bool :=
  s.toList.contains c

/-- `watch`, translated from the source: a pattern containing the character
`*` is rejected with a development-mode warning — nothing is registered and a
no-op unsubscribe closure is returned.  Otherwise a watcher entry is added to
the exact-path bucket for the pattern (created on demand) and the counter is
bumped. -/
def watch (st : Store) (pattern : String) (cbId : Nat) : Store × WatchToken :=
  if includesChar pattern '*' then
    (st, .noop)
  else
    ({ st with
        specificWatchers :=
          (match alistGet st.specificWatchers pattern with
            | some bucket =>
                alistSet st.specificWatchers pattern
                  (bucket ++ [{ id := st.nextWatchId, pattern := pattern, callback := cbId }])
            | none =>
                alistSet st.specificWatchers pattern
                  [{ id := st.nextWatchId, pattern := pattern, callback := cbId }]),
        totalSpecificWatchers := st.totalSpecificWatchers + 1,
        nextWatchId := st.nextWatchId + 1 },
      .entry pattern st.nextWatchId)

/-- The unsubscribe closure of `watch`: delete the single registration from
its bucket; when the deletion actually removed something, decrement the
counter and drop the bucket if it became empty. -/
def unwatch (st : Store) : WatchToken → Store
  | .noop => st
  | .entry pattern wid =>
      match alistGet st.specificWatchers pattern with
      | none => st
      | some bucket =>
          if bucket.any (fun e => decide (e.id = wid)) then
            { st with
                specificWatchers :=
                  if (bucket.filter (fun e => decide (e.id ≠ wid))).isEmpty then
                    alistRemove st.specificWatchers pattern
                  else
                    alistSet st.specificWatchers pattern
                      (bucket.filter (fun e => decide (e.id ≠ wid))),
                totalSpecificWatchers := st.totalSpecificWatchers - 1 }
          else st

/-- `notifyWatchers`, translated from the source: dispatch the change to the
watchers registered under exactly the changed path; the wildcard branch of
the source is commented out ("functionally removed"), so no segment-wise
matching happens.  Returns the invoked callbacks with their arguments. -/
def notifyWatchers (st : Store) (changedPath : String) (value : StoreVal) :
    List (Nat × String × StoreVal) :=
  match alistGet st.specificWatchers changedPath with
  | some bucket => bucket.map fun e => (e.callback, changedPath, value)
  | none => []

/-- C9: `watch` with a pattern containing `*` registers nothing — the store
is returned unchanged and the returned unsubscribe closure is a no-op on any
store — so the callback can never be invoked; and watcher dispatch invokes a
callback only from the bucket registered under exactly the changed path
string (no wildcard matching is ever applied). -/
theorem watch_wildcard_spec (st : Store) (pattern : String) (cbId : Nat)
    (hw : includesChar pattern '*' = true) :
    watch st pattern cbId = (st, .noop) ∧
    (∀ st2, unwatch st2 .noop = st2) ∧
    (∀ st2 q v out, out ∈ notifyWatchers st2 q v →
      out.2.1 = q ∧ ∃ bucket, alistGet st2.specificWatchers q = some bucket ∧
        ∃ e ∈ bucket, e.callback = out.1) := by
  refine ⟨by simp [watch, hw], fun st2 => rfl, ?_⟩
  intro st2 q v out hout
  unfold notifyWatchers at hout
  rcases hg : alistGet st2.specificWatchers q with _ | bucket
  · simp [hg] at hout
  · simp only [hg] at hout
    obtain ⟨e, he, heq⟩ := List.mem_map.mp hout
    subst heq
    exact ⟨rfl, bucket, rfl, e, he, rfl⟩

theorem watch_wildcard_spec_witness :
    (includesChar "rows.*.price" '*' = true) ∧
    watch emptyStore "rows.*.price" 4 = (emptyStore, .noop) ∧
    unwatch emptyStore .noop = emptyStore :=
  ⟨by decide, (watch_wildcard_spec emptyStore "rows.*.price" 4 (by decide)).1,
    (watch_wildcard_spec emptyStore "rows.*.price" 4 (by decide)).2.1 emptyStore⟩

/-! ### destroy -/

/-- Run the cleanup stack the way the `while … pop()` loop in `destroy` does;
the argument list is already in pop order (reverse registration order).  A
thrown value is captured into `firstError` only while `firstError` is falsy
(`if (!firstError) firstError = error` in the source) and never aborts the
loop.  Returns the ids of the cleanups that ran, in execution order, and the
final `firstError`. -/
def runCleanups : List Cleanup → StoreVal → List Nat × StoreVal
  | [], firstError => ([], firstError)
  | c :: rest, firstError =>
      let fe := match c.err with
        | some e => if truthy firstError then firstError else e
        | none => firstError
      let out := runCleanups rest fe
      (c.id :: out.1, out.2)

/-- `destroy`, translated from the source: pop and run every collected
cleanup (reverse registration order) continuing past thrown errors, clear
every internal collection, and finally re-throw `firstError` when it is
truthy.  Returns the surviving store, the cleanup ids in execution order and
the re-thrown value, if any. -/
def destroy (st : Store) : Store × List Nat × Option StoreVal :=
  let out := runCleanups st.pluginCleanups.reverse .undef
  ({ st with
      pluginCleanups := [],
      eventListeners := [],
      specificWatchers := [],
      wildcardWatchers := [],
      subscriptions := [],
      subscribersByPath := [],
      fieldValidators := [],
      fields := [],
      validationTracker := [] },
    out.1,
    if truthy out.2 then some out.2 else none)

/-- The first truthy error thrown along a cleanup run order. -/
def firstTruthyErr : List Cleanup → Option StoreVal
  | [] => none
  | c :: rest =>
      match c.err with
      | some e => if truthy e then some e else firstTruthyErr rest
      | none => firstTruthyErr rest

theorem runCleanups_ids : ∀ (l : List Cleanup) (fe : StoreVal),
    (runCleanups l fe).1 = l.map Cleanup.id := by
  intro l
  induction l with
  | nil => intro fe; rfl
  | cons c rest ih =>
      intro fe
      simp only [runCleanups, List.map_cons, ih]

theorem runCleanups_err_truthy : ∀ (l : List Cleanup) (fe : StoreVal),
    truthy fe = true → (runCleanups l fe).2 = fe := by
  intro l
  induction l with
  | nil => intro fe _; rfl
  | cons c rest ih =>
      intro fe hfe
      cases hc : c.err with
      | none => simp only [runCleanups, hc, ih fe hfe]
      | some e => simp only [runCleanups, hc, hfe, if_true, ih fe hfe]

theorem runCleanups_err_falsy : ∀ (l : List Cleanup) (fe : StoreVal),
    truthy fe = false →
    (if truthy (runCleanups l fe).2 then some (runCleanups l fe).2 else none) =
      firstTruthyErr l := by
  intro l
  induction l with
  | nil =>
      intro fe hfe
      simp [runCleanups, firstTruthyErr, hfe]
  | cons c rest ih =>
      intro fe hfe
      cases hc : c.err with
      | none => simp only [runCleanups, hc, firstTruthyErr, ih fe hfe]
      | some e =>
          simp only [runCleanups, hc, hfe, Bool.false_eq_true, if_false, firstTruthyErr]
          cases he : truthy e with
          | false => simp [ih e he, he]
          | true => simp only [runCleanups_err_truthy rest e he, he, if_true]

theorem all_none_firstTruthyErr : ∀ (l : List Cleanup),
    (∀ c ∈ l, c.err = none) → firstTruthyErr l = none := by
  intro l
  induction l with
  | nil => intro _; rfl
  | cons c rest ih =>
      intro h
      have hc : c.err = none := h c (List.mem_cons_self c rest)
      simp only [firstTruthyErr, hc]
      exact ih fun x hx => h x (List.mem_cons_of_mem c hx)

/-- C6 (amended): `destroy()` runs every collected cleanup in reverse
registration order, continuing past thrown errors, and afterwards all
internal collections are empty.  After all cleanups have run, the first
*truthy* error encountered is re-thrown; an error that is a falsy JavaScript
value is swallowed by the `if (!firstError)` capture (see the
counterexample), and when no cleanup throws a truthy value `destroy()` does
not throw. -/
theorem destroy_spec (st : Store) :
    (destroy st).2.1 = (st.pluginCleanups.map Cleanup.id).reverse ∧
    (destroy st).2.2 = firstTruthyErr st.pluginCleanups.reverse ∧
    ((∀ c ∈ st.pluginCleanups, c.err = none) → (destroy st).2.2 = none) ∧
    (destroy st).1.fields = [] ∧ (destroy st).1.fieldValidators = [] ∧
    (destroy st).1.subscriptions = [] ∧ (destroy st).1.subscribersByPath = [] ∧
    (destroy st).1.specificWatchers = [] ∧ (destroy st).1.wildcardWatchers = [] ∧
    (destroy st).1.eventListeners = [] ∧ (destroy st).1.validationTracker = [] ∧
    (destroy st).1.pluginCleanups = [] := by
  have hthrow : (destroy st).2.2 = firstTruthyErr st.pluginCleanups.reverse := by
    show (if truthy (runCleanups st.pluginCleanups.reverse .undef).2
        then some (runCleanups st.pluginCleanups.reverse .undef).2 else none) = _
    exact runCleanups_err_falsy _ .undef rfl
  refine ⟨?_, hthrow, ?_, rfl, rfl, rfl, rfl, rfl, rfl, rfl, rfl, rfl⟩
  · show (runCleanups st.pluginCleanups.reverse .undef).1 = _
    rw [runCleanups_ids, List.map_reverse]
  · intro hnone
    rw [hthrow]
    exact all_none_firstTruthyErr _ fun c hc => hnone c (List.mem_reverse.mp hc)

theorem destroy_spec_witness :
    (destroy { emptyStore with
        pluginCleanups := [⟨1, none⟩, ⟨2, some (.str "late")⟩],
        fields := [("p", { mode := Mode.uncontrolled })] }).2.1 = [2, 1] ∧
    (destroy { emptyStore with
        pluginCleanups := [⟨1, none⟩, ⟨2, some (.str "late")⟩],
        fields := [("p", { mode := Mode.uncontrolled })] }).2.2 = some (.str "late") ∧
    (destroy { emptyStore with
        pluginCleanups := [⟨1, none⟩, ⟨2, some (.str "late")⟩],
        fields := [("p", { mode := Mode.uncontrolled })] }).1.fields = [] := by
  have h := destroy_spec { emptyStore with
      pluginCleanups := [⟨1, none⟩, ⟨2, some (.str "late")⟩],
      fields := [("p", { mode := Mode.uncontrolled })] }
  refine ⟨by rw [h.1]; rfl, by rw [h.2.1]; rfl, h.2.2.2.1⟩

/-- C6 counterexample: with cleanup 1 registered first (throwing the string
`"boom"`) and cleanup 2 registered second (throwing `false`), the run order
is `[2, 1]` and the first error encountered is `false`, but `destroy`
re-throws `"boom"`: the `if (!firstError)` capture skips falsy errors, so the
first error encountered is not the one re-thrown. -/
theorem destroy_first_error_counterexample :
    (destroy { emptyStore with
        pluginCleanups := [⟨1, some (.str "boom")⟩, ⟨2, some (.vbool false)⟩] }).2.1 =
      [2, 1] ∧
    (destroy { emptyStore with
        pluginCleanups := [⟨1, some (.str "boom")⟩, ⟨2, some (.vbool false)⟩] }).2.2 =
      some (.str "boom") ∧
    some (StoreVal.str "boom") ≠ some (StoreVal.vbool false) := by
  refine ⟨rfl, rfl, by decide⟩

/-! ### Validation scheduler -/

/-- Validation result (`{ok, message?}`). -/
structure VResult where
  ok : Bool
  message : Option String := none
deriving DecidableEq, Repr

/-- `buildValidationResult` from the source. -/
def buildValidationResult (ok : Bool) (message : Option String) : VResult :=
  if ok then { ok := true }
  else
    match message with
    | some m => { ok := false, message := some m }
    | none => { ok := false }

/-- What one validator does when invoked: return a result synchronously, or
return a promise that eventually resolves to the result.  Validators are
identified by ids; an environment maps an id and the validated value to its
behaviour (path and snapshot arguments of real validators are omitted: the
claims below only depend on outcomes). -/
inductive ValidatorBehavior where
  | sync (r : VResult)
  | promise (r : VResult)

/-- The pending counter of the validation bucket for a key (0 when the bucket
does not exist yet). -/
def trackerPending (st : Store) (key : Option String) : Nat :=
  (alistGet st.validationTracker key).getD 0

/-- `getValidationBucket` followed by `bucket.pending += 1; ticket =
bucket.pending`: create the bucket on demand, increment, return the new
ticket. -/
def bumpTracker (st : Store) (key : Option String) : Store × Nat :=
  let cur := (alistGet st.validationTracker key).getD 0
  ({ st with validationTracker := alistSet st.validationTracker key (cur + 1) },
    cur + 1)

/-- Accumulator of the validator dispatch loop in `performValidation`:
first-failure-wins synchronous outcome, collected promise results, the ticket
taken on the first asynchronous validator, and the store (whose tracker the
first asynchronous validator bumps). -/
structure DispatchAcc where
  syncOk : Bool := true
  syncMessage : Option String := none
  asyncs : List VResult := []
  ticket : Option Nat := none
  store : Store

/-- One iteration of the dispatch loop: a promise is collected (taking a
ticket if this is the first one), a failing synchronous result is recorded
only while no earlier failure was (`!result.ok && syncOk`). -/
def validatorStep (env : Nat → StoreVal → ValidatorBehavior) (value : StoreVal) (p : String)
    (acc : DispatchAcc) (vid : Nat) : DispatchAcc :=
  match env vid value with
  | .promise r =>
      match acc.ticket with
      | some _ => { acc with asyncs := acc.asyncs ++ [r] }
      | none =>
          let bumped := bumpTracker acc.store (some p)
          { acc with asyncs := acc.asyncs ++ [r], ticket := some bumped.2,
                     store := bumped.1 }
  | .sync r =>
      if !r.ok && acc.syncOk then
        { acc with syncOk := false, syncMessage := r.message }
      else acc

/-- Outcome of one single-field `performValidation` run: a synchronous result
(with the store after any error-state update), or a pending run that captured
a ticket together with the data needed at resolution time. -/
inductive ValOutcome where
  | done (result : VResult) (store : Store)
  | pending (ticket : Nat) (syncOk : Bool) (syncMessage : Option String)
      (asyncResults : List VResult) (store : Store)

/-- The synchronous subscriber notification pass (`notifySubscribers` in the
source): rerun every subscription's selector against the plain snapshot and
invoke the callback when the value changed by `Object.is`.  Returns the
updated store and the callback invocations. -/
def notifySubscribersPass (st : Store) : Store × List (Nat × StoreVal) :=
  let out := st.subscriptions.foldl
    (fun (acc : List Subscription × List (Nat × StoreVal)) sub =>
      let nextValue := evalSel st.fields sub.selector
      if nextValue ≠ sub.lastValue then
        (acc.1 ++ [{ sub with lastValue := nextValue }], acc.2 ++ [(sub.callback, nextValue)])
      else (acc.1 ++ [sub], acc.2))
    ([], [])
  ({ st with subscriptions := out.1 }, out.2)

/-- The single-field part of `performValidation`, translated from the source:
an unregistered path or an empty validator set resolves `{ok: true}`
immediately (clearing a stale error); otherwise every attached validator runs
against the field's current value, synchronous failures combine
first-failure-wins, and if any validator returned a promise the run goes
pending under a freshly taken ticket without touching the error state. -/
def performValidationField (env : Nat → StoreVal → ValidatorBehavior) (st : Store)
    (p : String) : ValOutcome :=
  match alistGet st.fields p with
  | none => .done { ok := true } st
  | some record =>
      match (match record.validators with
             | some s => some s
             | none => alistGet st.fieldValidators p) with
      | none =>
          .done { ok := true }
            (if record.error ≠ none then
              { st with fields := alistSet st.fields p { record with error := none } }
            else st)
      | some [] =>
          .done { ok := true }
            (if record.error ≠ none then
              { st with fields := alistSet st.fields p { record with error := none } }
            else st)
      | some vids =>
          let value :=
            if record.mode = Mode.controlled then record.controlledValue
            else record.uncontrolledValue
          let acc := vids.foldl (validatorStep env value p) { store := st }
          match acc.ticket with
          | some t => .pending t acc.syncOk acc.syncMessage acc.asyncs acc.store
          | none =>
              let final := buildValidationResult acc.syncOk acc.syncMessage
              let nextError := if final.ok then none else final.message
              .done final
                (if record.error ≠ nextError then
                  { acc.store with
                      fields := alistSet acc.store.fields p { record with error := nextError } }
                else acc.store)

/-- Resolution of a pending validation run, translated from the
`Promise.all(...).then(...)` continuation in the source: when the bucket's
pending counter no longer equals the captured ticket the whole resolution is
silently discarded (`{ok: true}`, no error mutation, no notification);
otherwise the first failing result across async and sync outcomes wins, the
field's error is updated, and a synchronous subscriber notification pass
runs.  (Records are identified by path here; the source captures the record
object itself.) -/
def resolvePending (st : Store) (p : String) (ticket : Nat) (syncOk : Bool)
    (syncMessage : Option String) (asyncResults : List VResult) :
    Store × VResult × List (Nat × StoreVal) :=
  if trackerPending st (some p) ≠ ticket then
    (st, { ok := true }, [])
  else
    let firstFail := asyncResults.find? fun r => !r.ok
    let finalResult := firstFail.getD (buildValidationResult syncOk syncMessage)
    let nextError := if finalResult.ok then none else finalResult.message
    let st2 :=
      match alistGet st.fields p with
      | some record =>
          if record.error ≠ nextError then
            { st with fields := alistSet st.fields p { record with error := nextError } }
          else st
      | none => st
    let notified := notifySubscribersPass st2
    (notified.1, finalResult, notified.2)

/-- `addValidatorInternal` from the source: add the validator id to the
shared per-path set (creating it on demand) and mirror it on the record. -/
def addValidatorInternal (st : Store) (p : String) (vid : Nat) : Store :=
  let newList := setAdd ((alistGet st.fieldValidators p).getD []) vid
  { st with
      fieldValidators := alistSet st.fieldValidators p newList,
      fields :=
        match alistGet st.fields p with
        | some r => alistSet st.fields p { r with validators := some newList }
        | none => st.fields }

theorem validatorStep_some (env : Nat → StoreVal → ValidatorBehavior) (value : StoreVal)
    (p : String) (acc : DispatchAcc) (vid : Nat) (t : Nat) (h : acc.ticket = some t) :
    (validatorStep env value p acc vid).ticket = some t ∧
    (validatorStep env value p acc vid).store = acc.store := by
  cases henv : env vid value with
  | promise r => simp [validatorStep, henv, h]
  | sync r =>
      simp only [validatorStep, henv]
      split <;> simp [h]

theorem dispatchFold_some (env : Nat → StoreVal → ValidatorBehavior) (value : StoreVal)
    (p : String) :
    ∀ (vids : List Nat) (acc : DispatchAcc) (t : Nat), acc.ticket = some t →
      (vids.foldl (validatorStep env value p) acc).ticket = some t ∧
      (vids.foldl (validatorStep env value p) acc).store = acc.store
  | [], acc, t, h => ⟨h, rfl⟩
  | vid :: rest, acc, t, h => by
      have hs := validatorStep_some env value p acc vid t h
      have ih := dispatchFold_some env value p rest (validatorStep env value p acc vid) t hs.1
      simp only [List.foldl]
      exact ⟨ih.1, ih.2.trans hs.2⟩

theorem dispatchFold_none (env : Nat → StoreVal → ValidatorBehavior) (value : StoreVal)
    (p : String) :
    ∀ (vids : List Nat) (acc : DispatchAcc), acc.ticket = none →
      ((vids.foldl (validatorStep env value p) acc).ticket = none ∧
        (vids.foldl (validatorStep env value p) acc).store = acc.store) ∨
      ((vids.foldl (validatorStep env value p) acc).ticket =
          some (trackerPending acc.store (some p) + 1) ∧
        (vids.foldl (validatorStep env value p) acc).store =
          { acc.store with
              validationTracker := alistSet acc.store.validationTracker (some p)
                  (trackerPending acc.store (some p) + 1) })
  | [], acc, h => Or.inl ⟨h, rfl⟩
  | vid :: rest, acc, h => by
      simp only [List.foldl]
      cases henv : env vid value with
      | sync r =>
          have hstep : (validatorStep env value p acc vid).ticket = none ∧
              (validatorStep env value p acc vid).store = acc.store := by
            simp only [validatorStep, henv]
            split <;> simp [h]
          rcases dispatchFold_none env value p rest _ hstep.1 with ⟨h1, h2⟩ | ⟨h1, h2⟩
          · exact Or.inl ⟨h1, h2.trans hstep.2⟩
          · rw [hstep.2] at h1 h2
            exact Or.inr ⟨h1, h2⟩
      | promise r =>
          have hstep : (validatorStep env value p acc vid).ticket =
              some (trackerPending acc.store (some p) + 1) ∧
              (validatorStep env value p acc vid).store =
                { acc.store with
                    validationTracker := alistSet acc.store.validationTracker (some p)
                        (trackerPending acc.store (some p) + 1) } := by
            unfold validatorStep
            rw [henv, h]
            exact ⟨rfl, rfl⟩
          have hsome := dispatchFold_some env value p rest _ _ hstep.1
          exact Or.inr ⟨hsome.1, hsome.2.trans hstep.2⟩

theorem dispatchTicket_pending (env : Nat → StoreVal → ValidatorBehavior) (value : StoreVal)
    (p : String) (vids : List Nat) (st : Store) (t' : Nat)
    (heq : (vids.foldl (validatorStep env value p) { store := st }).ticket = some t') :
    t' = trackerPending st (some p) + 1 ∧
    (vids.foldl (validatorStep env value p) { store := st }).store =
      { st with validationTracker := alistSet st.validationTracker (some p) t' } := by
  rcases dispatchFold_none env value p vids { store := st } rfl with ⟨h1, _⟩ | ⟨h1, h2⟩
  · rw [heq] at h1
    exact absurd h1 (by simp)
  · rw [heq] at h1
    injection h1 with h1
    subst h1
    exact ⟨rfl, h2⟩

/-- A run of `performValidation(p)` that goes pending took the freshly bumped
pending counter as its ticket: the ticket is the previous counter plus one,
and the returned store differs from the input store only in that tracker
entry (in particular the error state is untouched). -/
theorem performValidationField_pending (env : Nat → StoreVal → ValidatorBehavior)
    (st : Store) (p : String) (t : Nat) (ok : Bool) (msg : Option String)
    (asyncs : List VResult) (st' : Store)
    (h : performValidationField env st p = .pending t ok msg asyncs st') :
    t = trackerPending st (some p) + 1 ∧
    st' = { st with validationTracker := alistSet st.validationTracker (some p) t } := by
  simp only [performValidationField] at h
  split at h
  · exact absurd h (by simp)
  · split at h
    · exact absurd h (by simp)
    · exact absurd h (by simp)
    · split at h
      · rename_i t' heq
        injection h with e1 e2 e3 e4 e5
        rw [e1] at heq
        have hh := dispatchTicket_pending env _ p _ _ _ heq
        exact ⟨hh.1, e5 ▸ hh.2⟩
      · exact absurd h (by simp)

/-- The remover closure returned by `addValidatorInternal`: delete the id
from the shared set; when the set becomes empty, drop the map entry and reset
the record's `validators` to `undefined`. -/
def removeValidatorOp (st : Store) (p : String) (vid : Nat) : Store :=
  match alistGet st.fieldValidators p with
  | none => st
  | some list =>
      if (setRemove list vid).isEmpty then
        { st with
            fieldValidators := alistRemove st.fieldValidators p,
            fields :=
              match alistGet st.fields p with
              | some r => alistSet st.fields p { r with validators := none }
              | none => st.fields }
      else
        { st with
            fieldValidators := alistSet st.fieldValidators p (setRemove list vid),
            fields :=
              match alistGet st.fields p with
              | some r => alistSet st.fields p { r with validators := some (setRemove list vid) }
              | none => st.fields }

/-- **C4** (amended).  Validation ticket property for asynchronous runs: when
a second `validate(p)` run that itself dispatches at least one asynchronous
validator starts while an earlier asynchronous run for `p` is in flight, the
earlier ticket is stale: the earlier run's resolution is silently discarded —
it returns `{ok: true}`, leaves the store (in particular the error state)
exactly as it was, and notifies nobody — and the two tickets differ.  The
original, unconditional claim (any later `validate(p)` call invalidates the
earlier in-flight run) is refuted by `stale_validation_counterexample`: a
later run that completes synchronously never bumps the pending counter, so
the earlier resolution still applies and overwrites the later result. -/
theorem stale_validation_ticket_spec
    (env : Nat → StoreVal → ValidatorBehavior) (st : Store) (p : String)
    (t1 : Nat) (ok1 : Bool) (m1 : Option String) (as1 : List VResult) (st1 : Store)
    (t2 : Nat) (ok2 : Bool) (m2 : Option String) (as2 : List VResult) (st2 : Store)
    (h1 : performValidationField env st p = .pending t1 ok1 m1 as1 st1)
    (h2 : performValidationField env st1 p = .pending t2 ok2 m2 as2 st2) :
    t2 ≠ t1 ∧
    resolvePending st2 p t1 ok1 m1 as1 = (st2, { ok := true }, []) := by
  obtain ⟨ht1, hst1⟩ := performValidationField_pending env st p t1 ok1 m1 as1 st1 h1
  obtain ⟨ht2, hst2⟩ := performValidationField_pending env st1 p t2 ok2 m2 as2 st2 h2
  have htr1 : trackerPending st1 (some p) = t1 := by
    rw [hst1]
    simp [trackerPending, alistGet_set_self]
  have htr2 : trackerPending st2 (some p) = t2 := by
    rw [hst2]
    simp [trackerPending, alistGet_set_self]
  have hne : t2 ≠ t1 := by
    rw [ht2, htr1]
    omega
  refine ⟨hne, ?_⟩
  have hcond : trackerPending st2 (some p) ≠ t1 := by
    rw [htr2]
    exact hne
  unfold resolvePending
  rw [if_pos hcond]

def c4wEnv : Nat → StoreVal → ValidatorBehavior :=
  fun _ _ => .promise { ok := false, message := some "late failure" }

def c4wRes : VResult := { ok := false, message := some "late failure" }

def c4wSt0 : Store := (register emptyStore "f" { validate := some 7 }).1

def c4wSt1 : Store :=
  { c4wSt0 with validationTracker := alistSet c4wSt0.validationTracker (some "f") 1 }

def c4wSt2 : Store :=
  { c4wSt1 with validationTracker := alistSet c4wSt1.validationTracker (some "f") 2 }

theorem stale_validation_ticket_spec_witness :
    (2 : Nat) ≠ 1 ∧
    resolvePending c4wSt2 "f" 1 true none [c4wRes] = (c4wSt2, { ok := true }, []) :=
  stale_validation_ticket_spec c4wEnv c4wSt0 "f" 1 true none [c4wRes] c4wSt1
    2 true none [c4wRes] c4wSt2 rfl rfl

def c4Env : Nat → StoreVal → ValidatorBehavior :=
  fun vid _ =>
    if vid = 0 then .promise { ok := false, message := some "e1" }
    else .sync { ok := true }

def c4St0 : Store := (register emptyStore "g" { validate := some 0 }).1

def c4St1 : Store :=
  { c4St0 with validationTracker := alistSet c4St0.validationTracker (some "g") 1 }

def c4StRemoved : Store := removeValidatorOp c4St1 "g" 0

def c4Run2 : ValOutcome := performValidationField c4Env c4StRemoved "g"

def c4Resolved : Store × VResult × List (Nat × StoreVal) :=
  resolvePending c4StRemoved "g" 1 true none [{ ok := false, message := some "e1" }]

/-- **C4** counterexample.  Register `"g"` with one validator whose promise
eventually fails with `"e1"`; start `validate("g")` (pending under ticket 1);
remove the validator; call `validate("g")` again — it completes synchronously
with `{ok: true}` and leaves `getError("g") = null`.  Resolving the earlier
run's promise afterwards is *not* treated as stale (the pending counter is
still 1): it mutates the error state to `"e1"`, overwriting the result of the
most recently started validation run, contrary to the claim. -/
theorem stale_validation_counterexample :
    performValidationField c4Env c4St0 "g" =
      .pending 1 true none [{ ok := false, message := some "e1" }] c4St1 ∧
    c4Run2 = .done { ok := true } c4StRemoved ∧
    Store.getError c4StRemoved "g" = none ∧
    c4Resolved.1.getError "g" = some "e1" ∧
    c4Resolved.2.1 = { ok := false, message := some "e1" } :=
  ⟨rfl, rfl, rfl, rfl, rfl⟩

end Rezend
